import Mathlib

/-!
# play-tag: a shallow embedding of `main.go`

The Go program keeps one shared `Game`: a roster of `*Player`, a map
`hunterBase` from team name to the slice of players captured by that team,
and a set of Prometheus metrics.  Each player goroutine repeatedly locks the
game, runs one decision step, and unlocks.

Modelling choices.

* A `*Player` is an address (`Nat`); the record behind it lives in
  `Game.heap`.  `initializeGame` allocates the `i`-th player at address `i`.
  The fields `teamMates` and `notifyChan` are never read or written after
  construction and are left out.
* A Go `map[string]V` is an association list; a lookup of a missing key
  yields the zero value of `V`, an assignment replaces the entry of an
  existing key or adds one.  `range` over the map visits the entries in the
  order of the list (Go leaves the order open; the list can be in any order).
* `rand.Float64()` yields a number in `[0,1)`; one critical section of `play`
  is a function of the game and of the four numbers it may draw, taken as
  rationals and compared with the constants `0.5`, `0.01`, `0.2`.
* Every call on a metric vector (`Inc`, `Dec` with its label values) is
  appended to `Game.metrics`; `strconv.Itoa id` is kept as the number `id`.
* A gauge is read off `Game.metrics` as an integer starting at 0 (`Inc` adds
  one, `Dec` subtracts one), a counter as the number of its `Inc` calls.
* `fmt.Printf` and `time.Sleep` do not touch the game and are left out.
-/

namespace PlayTag

/-! ## Constants and the team topology -/

/-- Chance for a player to attempt a hunt (`const huntChance = 0.5`). -/
def huntChance : ℚ := 1 / 2

/-- Chance for a player to attempt a rescue (`const rescueChance = 0.01`). -/
def rescueChance : ℚ := 1 / 100

/-- Chance for a player to exit or enter its base (`const baseChance = 0.2`). -/
def baseChance : ℚ := 1 / 5

/-- Go map lookup `m[k]` on an association list, with `zero` for a missing key. -/
def mapGet {V : Type} (zero : V) (m : List (String × V)) (k : String) : V :=
  match m with
  | [] => zero
  | e :: rest => if e.1 = k then e.2 else mapGet zero rest k

/-- Go map assignment `m[k] = v` on an association list. -/
def mapSet {V : Type} (m : List (String × V)) (k : String) (v : V) : List (String × V) :=
  match m with
  | [] => [(k, v)]
  | e :: rest => if e.1 = k then (e.1, v) :: rest else e :: mapSet rest k v

/-- The keys of a Go map, in the order `range` visits them. -/
def mapKeys {V : Type} (m : List (String × V)) : List String :=
  m.map Prod.fst

/-- The map literal assigned to the global `hunts` in `main`. -/
def huntsMap : List (String × String) :=
  [("fox", "chicken"), ("chicken", "snake"), ("snake", "fox")]

/-- The expression `hunts[t]`: the prey team of `t`, the empty string for an unknown team. -/
def hunts (t : String) : String :=
  mapGet "" huntsMap t

/-! ## Players, metrics and the game -/

/-- The struct `Player` (fields `id`, `team`, `hunted`, `inBase`). -/
structure Player where
  id : Nat
  team : String
  hunted : Bool
  inBase : Bool
deriving DecidableEq, Repr

/-- One call on a Prometheus metric vector, with its label values. -/
inductive Metric where
  | huntedCounterInc (team : String) (target : Nat) (hunter : Nat)
  | rescuedCounterInc (team : String) (player : Nat)
  | treasonCounterInc (team : String) (player : Nat)
  | huntedGaugeInc (team : String)
  | huntedGaugeDec (team : String)
  | inBaseGaugeInc (team : String) (player : Nat)
  | inBaseGaugeDec (team : String) (player : Nat)
deriving DecidableEq, Repr

/-- The struct `Game` together with the memory its pointers refer to and the metric calls made so far. -/
structure Game where
  heap : Nat → Player
  players : List Nat
  hunterBase : List (String × List Nat)
  metrics : List Metric

/-- Write the record `v` at address `a`. -/
def store (heap : Nat → Player) (a : Nat) (v : Player) : Nat → Player :=
  fun b => if b = a then v else heap b

/-- The assignment `q.hunted = b` through the pointer `q`. -/
def setHunted (g : Game) (q : Nat) (b : Bool) : Game :=
  { g with heap := store g.heap q { g.heap q with hunted := b } }

/-- The assignment `q.inBase = b` through the pointer `q`. -/
def setInBase (g : Game) (q : Nat) (b : Bool) : Game :=
  { g with heap := store g.heap q { g.heap q with inBase := b } }

/-- Record one call on a metric vector. -/
def emit (g : Game) (m : Metric) : Game :=
  { g with metrics := g.metrics ++ [m] }

/-- The expression `game.hunterBase[t]` (a `nil` slice for a missing key). -/
def bucket (g : Game) (t : String) : List Nat :=
  mapGet [] g.hunterBase t

/-! ## initializeGame -/

/-- Memory before any player is allocated: every address holds the zero `Player`. -/
def emptyHeap : Nat → Player :=
  fun _ => { id := 0, team := "", hunted := false, inBase := false }

/-- The value `&Game{}`. -/
def emptyGame : Game :=
  { heap := emptyHeap, players := [], hunterBase := [], metrics := [] }

/-- Body of the first loop of `initializeGame` at index `i`; `none` is the
run-time panic of `i % len(teams)` when `teams` is empty. -/
def addPlayer (teams : List String) (g : Game) (i : Nat) : Option Game :=
  if teams.length = 0 then none
  else
    match teams[i % teams.length]? with
    | none => none
    | some t =>
      let player : Player := { id := i + 1, team := t, hunted := false, inBase := true }
      let g1 : Game := { g with heap := store g.heap i player }
      let g2 := emit g1 (Metric.inBaseGaugeInc (g1.heap i).team (g1.heap i).id)
      some { g2 with players := g2.players ++ [i] }

/-- The first loop of `initializeGame` after `n` iterations. -/
def initPlayers (teams : List String) : Nat → Option Game
  | 0 => some emptyGame
  | n + 1 => (initPlayers teams n).bind (fun g => addPlayer teams g n)

/-- The function `initializeGame`; `teams` is the global slice of team names. -/
def initializeGame (teams : List String) (numPlayers : Int) : Option Game :=
  (initPlayers teams numPlayers.toNat).map (fun g =>
    { g with hunterBase := teams.foldl (fun m t => mapSet m t []) [] })

/-! ## findTarget, rescueTeammates, commitTreason -/

/-- The condition tested by `findTarget` on a roster entry. -/
def eligible (heap : Nat → Player) (currentPlayer : Nat) (target : Nat) : Prop :=
  (heap target).team = hunts (heap currentPlayer).team ∧
    (heap target).hunted = false ∧ (heap target).inBase = false

instance (heap : Nat → Player) (c t : Nat) : Decidable (eligible heap c t) :=
  inferInstanceAs (Decidable (_ ∧ _ ∧ _))

/-- The function `findTarget`: scan the roster, return the first entry passing the test. -/
def findTarget (heap : Nat → Player) (players : List Nat) (currentPlayer : Nat) : Option Nat :=
  match players with
  | [] => none
  | target :: rest =>
    if eligible heap currentPlayer target then some target
    else findTarget heap rest currentPlayer

/-- Body of the inner loop of `rescueTeammates` for one `teammate`. -/
def rescueOne (p : Nat) (g : Game) (teammate : Nat) : Game :=
  let g1 := setHunted g teammate false
  let g2 := emit g1 (Metric.rescuedCounterInc (g1.heap p).team (g1.heap p).id)
  emit g2 (Metric.huntedGaugeDec (g2.heap p).team)

/-- Body of the outer loop of `rescueTeammates` for one map entry `(team, base)`. -/
def rescueEntry (p : Nat) (g : Game) (e : String × List Nat) : Game :=
  if (g.heap p).team = hunts e.1 then
    let g1 := e.2.foldl (rescueOne p) g
    { g1 with hunterBase := mapSet g1.hunterBase e.1 [] }
  else g

/-- The method `rescueTeammates`. -/
def rescueTeammates (g : Game) (p : Nat) : Game :=
  g.hunterBase.foldl (rescueEntry p) g

/-- Body of the loop of `commitTreason` for one `enemy`. -/
def freeEnemy (g : Game) (enemy : Nat) : Game :=
  let g1 := setHunted g enemy false
  let g2 := emit g1 (Metric.rescuedCounterInc (g1.heap enemy).team (g1.heap enemy).id)
  emit g2 (Metric.huntedGaugeDec (g2.heap enemy).team)

/-- The method `commitTreason`. -/
def commitTreason (g : Game) (p : Nat) : Game :=
  let g1 := (bucket g (g.heap p).team).foldl freeEnemy g
  let g2 := emit g1 (Metric.treasonCounterInc (g1.heap p).team (g1.heap p).id)
  { g2 with hunterBase := mapSet g2.hunterBase (g2.heap p).team [] }

/-! ## play -/

/-- The numbers one critical section of `play` may draw with `rand.Float64()`, in source order. -/
structure Draws where
  exit : ℚ
  rescue : ℚ
  base : ℚ
  hunt : ℚ

/-- The first `if` of the loop body: a player in base may leave it. -/
def exitBase (g : Game) (p : Nat) (d : Draws) : Game :=
  if (g.heap p).inBase = true ∧ d.exit < baseChance then
    let g1 := setInBase g p false
    emit g1 (Metric.inBaseGaugeDec (g1.heap p).team (g1.heap p).id)
  else g

/-- The branch `p.inBase = true` with its gauge increment. -/
def enterBase (g : Game) (p : Nat) : Game :=
  let g1 := setInBase g p true
  emit g1 (Metric.inBaseGaugeInc (g1.heap p).team (g1.heap p).id)

/-- The hunt branch of `play` for the selected `target`. -/
def hunt (g : Game) (p : Nat) (target : Nat) : Game :=
  let g1 := setHunted g target true
  let g2 : Game :=
    { g1 with hunterBase := mapSet g1.hunterBase (g1.heap p).team (bucket g1 (g1.heap p).team ++ [target]) }
  let g3 := emit g2 (Metric.huntedCounterInc (g2.heap target).team (g2.heap target).id (g2.heap p).id)
  emit g3 (Metric.huntedGaugeInc (g3.heap target).team)

/-- The second `if` of the loop body: the decision of a free player outside its base.
The chain `else if target != nil && draw < huntChance ... else if target == nil ...`
is written as a case split on `target`. -/
def act (g : Game) (p : Nat) (d : Draws) : Game :=
  if (g.heap p).hunted = false ∧ (g.heap p).inBase = false then
    let target := findTarget g.heap g.players p
    if d.rescue < rescueChance then rescueTeammates g p
    else if d.base < baseChance then enterBase g p
    else
      match target with
      | some t => if d.hunt < huntChance then hunt g p t else g
      | none => commitTreason g p
  else g

/-- One iteration of the loop of `play`, from `Lock` to `Unlock`. -/
def play (g : Game) (p : Nat) (d : Draws) : Game :=
  act (exitBase g p d) p d

/-! ## Reading the metrics -/

/-- Labels `(team, player)` of the calls `rescuedCounter...Inc()`, oldest first. -/
def rescuedEvents (ms : List Metric) : List (String × Nat) :=
  ms.filterMap (fun m =>
    match m with
    | Metric.rescuedCounterInc t i => some (t, i)
    | _ => none)

/-- Labels `(team, player)` of the calls `treasonCounter...Inc()`, oldest first. -/
def treasonEvents (ms : List Metric) : List (String × Nat) :=
  ms.filterMap (fun m =>
    match m with
    | Metric.treasonCounterInc t i => some (t, i)
    | _ => none)

/-- Number of occurrences of the address `a` in all buckets of a capture map. -/
def occurrences (m : List (String × List Nat)) (a : Nat) : Nat :=
  (m.map (fun e => e.2.count a)).sum

/-- Number of buckets of a capture map that contain the address `a`. -/
def bucketsWith (m : List (String × List Nat)) (a : Nat) : Nat :=
  (m.filter (fun e => decide (a ∈ e.2))).length

/-! ## Release loops -/

/-- Metric calls made by `rescueTeammates` for one released captive. -/
def rescueCalls (heap : Nat → Player) (p : Nat) : List Metric :=
  [Metric.rescuedCounterInc (heap p).team (heap p).id, Metric.huntedGaugeDec (heap p).team]

/-- Metric calls made by `commitTreason` for the released captive `enemy`. -/
def freeCalls (heap : Nat → Player) (enemy : Nat) : List Metric :=
  [Metric.rescuedCounterInc (heap enemy).team (heap enemy).id,
    Metric.huntedGaugeDec (heap enemy).team]

/-- The effect of a release loop on a game: roster and the immutable
fields are kept, exactly the listed captives lose their `hunted` flag. -/
structure Released (g g' : Game) (l : List Nat) : Prop where
  players : g'.players = g.players
  team : ∀ a, (g'.heap a).team = (g.heap a).team
  id : ∀ a, (g'.heap a).id = (g.heap a).id
  inBase : ∀ a, (g'.heap a).inBase = (g.heap a).inBase
  freed : ∀ a, a ∈ l → (g'.heap a).hunted = false
  other : ∀ a, a ∉ l → g'.heap a = g.heap a

/-- The captives `rescueTeammates` releases for a caller of team `t`: the
contents of the entries whose key hunts `t`, in the order of the loops. -/
def rescuedOf (t : String) (es : List (String × List Nat)) : List Nat :=
  es.flatMap (fun e => if t = hunts e.1 then e.2 else [])

/-- The entry `rescueTeammates` leaves behind for a caller of team `t`. -/
def clearedFor (t : String) (e : String × List Nat) : String × List Nat :=
  if t = hunts e.1 then (e.1, []) else e

/-! ## Reachable states -/

/-- The global `teams` is built by ranging over `hunts`, so it lists the keys in some order. -/
def teamsOf (teams : List String) : Prop :=
  teams.Perm (mapKeys huntsMap)

instance (teams : List String) : Decidable (teamsOf teams) :=
  inferInstanceAs (Decidable (teams.Perm (mapKeys huntsMap)))

/-- States of the game under the lock: `initializeGame` followed by critical
sections of roster players, in any order and with any draws. -/
inductive Reachable : Game → Prop where
  | init (teams : List String) (numPlayers : Int) (g : Game) :
      teamsOf teams → initializeGame teams numPlayers = some g → Reachable g
  | step (g : Game) (p : Nat) (d : Draws) :
      Reachable g → p ∈ g.players → Reachable (play g p d)

/-! ## The scenario of the specification -/

/-- Three players at addresses 0, 1, 2 with ids 1 (fox), 2 (chicken), 3 (snake), all outside their base. -/
def scenarioHeap : Nat → Player :=
  store (store (store emptyHeap
    0 { id := 1, team := "fox", hunted := false, inBase := false })
    1 { id := 2, team := "chicken", hunted := false, inBase := false })
    2 { id := 3, team := "snake", hunted := false, inBase := false }

/-- The scenario before any capture: every bucket is empty. -/
def scenario : Game :=
  { heap := scenarioHeap, players := [0, 1, 2],
    hunterBase := [("fox", []), ("chicken", []), ("snake", [])], metrics := [] }

/-- Draws with which a free player outside its base hunts when a target exists. -/
def huntDraws : Draws :=
  { exit := 1 / 2, rescue := 1 / 2, base := 1 / 2, hunt := 0 }

/-- Draws with which a free player outside its base passes the rescue, base and hunt tests. -/
def idleDraws : Draws :=
  { exit := 1 / 2, rescue := 1 / 2, base := 1 / 2, hunt := 3 / 4 }

/-- The scenario after player 1 has captured player 2. -/
def scenarioCaptured : Game :=
  { heap := store scenarioHeap 1 { id := 2, team := "chicken", hunted := true, inBase := false },
    players := [0, 1, 2],
    hunterBase := [("fox", [1]), ("chicken", []), ("snake", [])],
    metrics := [Metric.huntedCounterInc "chicken" 2 1, Metric.huntedGaugeInc "chicken"] }

/-- The scenario after the capture, with a second chicken (id 4, address 3) still free. -/
def scenarioSecondChicken : Game :=
  { heap := store scenarioCaptured.heap 3
      { id := 4, team := "chicken", hunted := false, inBase := false },
    players := [0, 1, 2, 3],
    hunterBase := [("fox", [1]), ("chicken", []), ("snake", [])],
    metrics := scenarioCaptured.metrics }

/-- What holds of the game whenever the lock is free: the capture map has the
configured teams as keys, roster players are on configured teams, no address
occurs twice in the buckets, the hunted players are the captives, nobody in
base is hunted, and a captive is on the prey team of the bucket it sits in. -/
structure Inv (g : Game) : Prop where
  keys : (mapKeys g.hunterBase).Perm (mapKeys huntsMap)
  teams : ∀ p, p ∈ g.players → (g.heap p).team ∈ mapKeys huntsMap
  occ : ∀ a, occurrences g.hunterBase a ≤ 1
  hunted : ∀ a, (g.heap a).hunted = true ↔ occurrences g.hunterBase a = 1
  base : ∀ a, (g.heap a).inBase = true → (g.heap a).hunted = false
  prey : ∀ e, e ∈ g.hunterBase → ∀ a, a ∈ e.2 → (g.heap a).team = hunts e.1

/-- The game `initializeGame(3)` returns when `teams` is fox, chicken, snake. -/
def startGame : Game :=
  { heap := store (store (store emptyHeap
      0 { id := 1, team := "fox", hunted := false, inBase := true })
      1 { id := 2, team := "chicken", hunted := false, inBase := true })
      2 { id := 3, team := "snake", hunted := false, inBase := true },
    players := [0, 1, 2],
    hunterBase := [("fox", []), ("chicken", []), ("snake", [])],
    metrics := [Metric.inBaseGaugeInc "fox" 1, Metric.inBaseGaugeInc "chicken" 2,
      Metric.inBaseGaugeInc "snake" 3] }

/-- Draws with which a player in base leaves it and then passes the rescue and base tests. -/
def exitDraws : Draws :=
  { exit := 0, rescue := 1 / 2, base := 1 / 2, hunt := 0 }

/-- The start game after player 2 (chicken) left its base and player 1 (fox)
left its base and hunted. -/
def afterFirstHunt : Game :=
  play (play startGame 1 exitDraws) 0 exitDraws

/-! ## Gauges and counters -/

/-- Draws with which a player in base leaves it and attempts a rescue. -/
def rescueDraws : Draws :=
  { exit := 0, rescue := 0, base := 1 / 2, hunt := 1 / 2 }

/-- All captives of a capture map, bucket after bucket. -/
def captives (m : List (String × List Nat)) : List Nat :=
  m.flatMap (fun e => e.2)

/-- Change of the gauge `huntedGauge` with label `team` made by one metric call. -/
def huntedGaugeDelta (team : String) (m : Metric) : Int :=
  match m with
  | Metric.huntedGaugeInc t => if t = team then 1 else 0
  | Metric.huntedGaugeDec t => if t = team then -1 else 0
  | _ => 0

/-- Value of the gauge `huntedGauge` with label `team`, as an integer starting at 0. -/
def huntedGaugeValue (ms : List Metric) (team : String) : Int :=
  (ms.map (huntedGaugeDelta team)).sum

/-- Change of the gauge `inBaseGauge` with labels `team`, `player` made by one metric call. -/
def inBaseGaugeDelta (team : String) (player : Nat) (m : Metric) : Int :=
  match m with
  | Metric.inBaseGaugeInc t i => if t = team ∧ i = player then 1 else 0
  | Metric.inBaseGaugeDec t i => if t = team ∧ i = player then -1 else 0
  | _ => 0

/-- Value of the gauge `inBaseGauge` with labels `team`, `player`, as an integer starting at 0. -/
def inBaseGaugeValue (ms : List Metric) (team : String) (player : Nat) : Int :=
  (ms.map (inBaseGaugeDelta team player)).sum

/-- Whether a metric call increments the counter `huntedCounter`. -/
def isCapture (m : Metric) : Bool :=
  match m with
  | Metric.huntedCounterInc _ _ _ => true
  | _ => false

/-- Total of the increments of `huntedCounter`, over all labels. -/
def capturedTotal (ms : List Metric) : Nat :=
  ms.countP isCapture

/-- Total of the increments of `rescuedCounter`, over all labels. -/
def rescuedTotal (ms : List Metric) : Nat :=
  (rescuedEvents ms).length

/-- The roster players of team `team` whose `hunted` flag is set. -/
def huntedOfTeam (g : Game) (team : String) : List Nat :=
  g.players.filter (fun a => decide ((g.heap a).team = team) && (g.heap a).hunted)

/-- The roster players whose `hunted` flag is set. -/
def huntedPlayers (g : Game) : List Nat :=
  g.players.filter (fun a => (g.heap a).hunted)

/-- The bookkeeping that holds whenever the lock is free: the roster is the
addresses `0 .. n-1` with ids `1 .. n`, captives are roster players, the gauges
agree with the buckets and the flags, and captures equal rescues plus captives. -/
structure Books (g : Game) : Prop where
  roster : ∃ n, g.players = List.range n
  ids : ∀ a, a ∈ g.players → (g.heap a).id = a + 1
  captiveRoster : ∀ a, a ∈ captives g.hunterBase → a ∈ g.players
  huntedGauge : ∀ t, huntedGaugeValue g.metrics t =
    ((captives g.hunterBase).countP (fun a => decide ((g.heap a).team = t)) : Nat)
  inBaseGauge : ∀ a, a ∈ g.players →
    inBaseGaugeValue g.metrics (g.heap a).team (g.heap a).id =
      if (g.heap a).inBase = true then 1 else 0
  totals : capturedTotal g.metrics = rescuedTotal g.metrics + (captives g.hunterBase).length

/-- The game `initializeGame(4)` returns when `teams` is chicken, fox, snake. -/
def startFour : Game :=
  { heap := store (store (store (store emptyHeap
      0 { id := 1, team := "chicken", hunted := false, inBase := true })
      1 { id := 2, team := "fox", hunted := false, inBase := true })
      2 { id := 3, team := "snake", hunted := false, inBase := true })
      3 { id := 4, team := "chicken", hunted := false, inBase := true },
    players := [0, 1, 2, 3],
    hunterBase := [("chicken", []), ("fox", []), ("snake", [])],
    metrics := [Metric.inBaseGaugeInc "chicken" 1, Metric.inBaseGaugeInc "fox" 2,
      Metric.inBaseGaugeInc "snake" 3, Metric.inBaseGaugeInc "chicken" 4] }

/-- The game `initializeGame(6)` returns when `teams` is fox, chicken, snake. -/
def startSix : Game :=
  { heap := store (store (store (store (store (store emptyHeap
      0 { id := 1, team := "fox", hunted := false, inBase := true })
      1 { id := 2, team := "chicken", hunted := false, inBase := true })
      2 { id := 3, team := "snake", hunted := false, inBase := true })
      3 { id := 4, team := "fox", hunted := false, inBase := true })
      4 { id := 5, team := "chicken", hunted := false, inBase := true })
      5 { id := 6, team := "snake", hunted := false, inBase := true },
    players := [0, 1, 2, 3, 4, 5],
    hunterBase := [("fox", []), ("chicken", []), ("snake", [])],
    metrics := [Metric.inBaseGaugeInc "fox" 1, Metric.inBaseGaugeInc "chicken" 2,
      Metric.inBaseGaugeInc "snake" 3, Metric.inBaseGaugeInc "fox" 4,
      Metric.inBaseGaugeInc "chicken" 5, Metric.inBaseGaugeInc "snake" 6] }

/-- The game `startSix` after the two foxes, players 1 and 4, left their base;
both are free, so a snake has two candidates to hunt. -/
def twoFoxesOut : Game :=
  play (play startSix 0 exitDraws) 3 exitDraws

/-- The game `startFour` after player 1 (chicken) left its base and player 2
(fox) left its base and captured player 1. -/
def chickenCaptured : Game :=
  play (play startFour 0 exitDraws) 1 exitDraws

/-! ## Field access after the elementary updates -/

@[simp] theorem emit_heap (g : Game) (m : Metric) : (emit g m).heap = g.heap := rfl

@[simp] theorem emit_players (g : Game) (m : Metric) : (emit g m).players = g.players := rfl

@[simp] theorem emit_hunterBase (g : Game) (m : Metric) :
    (emit g m).hunterBase = g.hunterBase := rfl

@[simp] theorem emit_metrics (g : Game) (m : Metric) :
    (emit g m).metrics = g.metrics ++ [m] := rfl

@[simp] theorem setHunted_players (g : Game) (q : Nat) (b : Bool) :
    (setHunted g q b).players = g.players := rfl

@[simp] theorem setHunted_hunterBase (g : Game) (q : Nat) (b : Bool) :
    (setHunted g q b).hunterBase = g.hunterBase := rfl

@[simp] theorem setHunted_metrics (g : Game) (q : Nat) (b : Bool) :
    (setHunted g q b).metrics = g.metrics := rfl

@[simp] theorem setHunted_team (g : Game) (q : Nat) (b : Bool) (a : Nat) :
    ((setHunted g q b).heap a).team = (g.heap a).team := by
  by_cases h : a = q <;> simp [setHunted, store, h]

@[simp] theorem setHunted_id (g : Game) (q : Nat) (b : Bool) (a : Nat) :
    ((setHunted g q b).heap a).id = (g.heap a).id := by
  by_cases h : a = q <;> simp [setHunted, store, h]

@[simp] theorem setHunted_inBase (g : Game) (q : Nat) (b : Bool) (a : Nat) :
    ((setHunted g q b).heap a).inBase = (g.heap a).inBase := by
  by_cases h : a = q <;> simp [setHunted, store, h]

theorem setHunted_hunted (g : Game) (q : Nat) (b : Bool) (a : Nat) :
    ((setHunted g q b).heap a).hunted = if a = q then b else (g.heap a).hunted := by
  by_cases h : a = q <;> simp [setHunted, store, h]

theorem setHunted_heap_other (g : Game) (q : Nat) (b : Bool) (a : Nat) (h : a ≠ q) :
    (setHunted g q b).heap a = g.heap a := by
  simp [setHunted, store, h]

@[simp] theorem setInBase_players (g : Game) (q : Nat) (b : Bool) :
    (setInBase g q b).players = g.players := rfl

@[simp] theorem setInBase_hunterBase (g : Game) (q : Nat) (b : Bool) :
    (setInBase g q b).hunterBase = g.hunterBase := rfl

@[simp] theorem setInBase_metrics (g : Game) (q : Nat) (b : Bool) :
    (setInBase g q b).metrics = g.metrics := rfl

@[simp] theorem setInBase_team (g : Game) (q : Nat) (b : Bool) (a : Nat) :
    ((setInBase g q b).heap a).team = (g.heap a).team := by
  by_cases h : a = q <;> simp [setInBase, store, h]

@[simp] theorem setInBase_id (g : Game) (q : Nat) (b : Bool) (a : Nat) :
    ((setInBase g q b).heap a).id = (g.heap a).id := by
  by_cases h : a = q <;> simp [setInBase, store, h]

@[simp] theorem setInBase_hunted (g : Game) (q : Nat) (b : Bool) (a : Nat) :
    ((setInBase g q b).heap a).hunted = (g.heap a).hunted := by
  by_cases h : a = q <;> simp [setInBase, store, h]

theorem setInBase_inBase (g : Game) (q : Nat) (b : Bool) (a : Nat) :
    ((setInBase g q b).heap a).inBase = if a = q then b else (g.heap a).inBase := by
  by_cases h : a = q <;> simp [setInBase, store, h]

theorem setInBase_heap_other (g : Game) (q : Nat) (b : Bool) (a : Nat) (h : a ≠ q) :
    (setInBase g q b).heap a = g.heap a := by
  simp [setInBase, store, h]

/-! ## Go maps as association lists -/

theorem mapGet_mapSet_same {V : Type} (z : V) (m : List (String × V)) (k : String) (v : V) :
    mapGet z (mapSet m k v) k = v := by
  induction m with
  | nil => simp [mapSet, mapGet]
  | cons e rest ih =>
    by_cases h : e.1 = k
    · simp [mapSet, mapGet, h]
    · simp [mapSet, mapGet, h, ih]

theorem mapGet_mapSet_other {V : Type} (z : V) (m : List (String × V)) (k k' : String) (v : V)
    (hk : k' ≠ k) : mapGet z (mapSet m k v) k' = mapGet z m k' := by
  induction m with
  | nil => simp [mapSet, mapGet, Ne.symm hk]
  | cons e rest ih =>
    by_cases h : e.1 = k
    · have h' : ¬ e.1 = k' := fun h2 => hk (h2.symm.trans h)
      simp only [mapSet, if_pos h, mapGet, if_neg h']
    · simp only [mapSet, if_neg h, mapGet, ih]

theorem mapGet_of_not_mem {V : Type} (z : V) (m : List (String × V)) (k : String)
    (hk : k ∉ mapKeys m) : mapGet z m k = z := by
  induction m with
  | nil => rfl
  | cons e rest ih =>
    have h1 : ¬ e.1 = k := fun h => hk (by simp [mapKeys, ← h])
    have h2 : k ∉ mapKeys rest := fun h => hk (by simp [mapKeys] at h ⊢; exact Or.inr h)
    simp [mapGet, h1, ih h2]

theorem mapGet_mem_or {V : Type} (z : V) (m : List (String × V)) (k : String) :
    k ∉ mapKeys m ∨ (k, mapGet z m k) ∈ m := by
  induction m with
  | nil => left; simp [mapKeys]
  | cons e rest ih =>
    by_cases h : e.1 = k
    · right
      simp only [mapGet, h, if_true]
      rw [← h]
      exact List.mem_cons_self _ _
    · rcases ih with ih | ih
      · left
        intro hm
        simp only [mapKeys, List.map_cons, List.mem_cons] at hm
        rcases hm with hm | hm
        · exact h hm.symm
        · exact ih hm
      · right
        simp only [mapGet, h, if_false]
        exact List.mem_cons_of_mem _ ih

theorem mapGet_of_mem {V : Type} (z : V) (m : List (String × V)) (k : String) (v : V)
    (hn : (mapKeys m).Nodup) (hm : (k, v) ∈ m) : mapGet z m k = v := by
  induction m with
  | nil => cases hm
  | cons e rest ih =>
    simp only [mapKeys, List.map_cons, List.nodup_cons] at hn
    rcases List.mem_cons.mp hm with rfl | hm
    · simp [mapGet]
    · have h : ¬ e.1 = k := by
        intro h
        apply hn.1
        rw [h]
        exact List.mem_map.mpr ⟨(k, v), hm, rfl⟩
      simp only [mapGet, h, if_false]
      exact ih hn.2 hm

theorem mapKeys_mapSet_of_mem {V : Type} (m : List (String × V)) (k : String) (v : V)
    (hk : k ∈ mapKeys m) : mapKeys (mapSet m k v) = mapKeys m := by
  induction m with
  | nil => simp [mapKeys] at hk
  | cons e rest ih =>
    by_cases h : e.1 = k
    · simp [mapSet, mapKeys, h]
    · have hk' : k ∈ mapKeys rest := by
        simp only [mapKeys, List.map_cons, List.mem_cons] at hk
        rcases hk with hk | hk
        · exact absurd hk.symm h
        · exact hk
      have := ih hk'
      simp only [mapKeys] at this
      simp [mapSet, mapKeys, h, this]

theorem mapKeys_mapSet_of_not_mem {V : Type} (m : List (String × V)) (k : String) (v : V)
    (hk : k ∉ mapKeys m) : mapKeys (mapSet m k v) = mapKeys m ++ [k] := by
  induction m with
  | nil => simp [mapSet, mapKeys]
  | cons e rest ih =>
    have h1 : ¬ e.1 = k := fun h => hk (by simp [mapKeys, ← h])
    have h2 : k ∉ mapKeys rest := fun h => hk (by simp [mapKeys] at h ⊢; exact Or.inr h)
    have := ih h2
    simp only [mapKeys] at this
    simp [mapSet, mapKeys, h1, this]

theorem nodup_mapKeys_mapSet {V : Type} (m : List (String × V)) (k : String) (v : V)
    (hn : (mapKeys m).Nodup) : (mapKeys (mapSet m k v)).Nodup := by
  by_cases hk : k ∈ mapKeys m
  · rw [mapKeys_mapSet_of_mem m k v hk]
    exact hn
  · rw [mapKeys_mapSet_of_not_mem m k v hk]
    exact List.nodup_append.mpr ⟨hn, List.nodup_singleton k, by
      intro x hx hx'
      rw [List.mem_singleton] at hx'
      exact hk (hx' ▸ hx)⟩

theorem mem_mapSet {V : Type} (m : List (String × V)) (k : String) (v : V) (e : String × V)
    (he : e ∈ mapSet m k v) : e ∈ m ∨ e = (k, v) := by
  induction m with
  | nil =>
    right
    simpa [mapSet] using he
  | cons x rest ih =>
    by_cases h : x.1 = k
    · simp only [mapSet, h, if_true, List.mem_cons] at he
      rcases he with he | he
      · right; exact he
      · left; exact List.mem_cons_of_mem _ he
    · simp only [mapSet, h, if_false, List.mem_cons] at he
      rcases he with he | he
      · left; rw [he]; exact List.mem_cons_self _ _
      · rcases ih he with h1 | h1
        · left; exact List.mem_cons_of_mem _ h1
        · right; exact h1

theorem mapSet_append_of_not_mem {V : Type} (pre rest : List (String × V)) (k : String)
    (w v : V) (hk : k ∉ mapKeys pre) :
    mapSet (pre ++ (k, w) :: rest) k v = pre ++ (k, v) :: rest := by
  induction pre with
  | nil => simp [mapSet]
  | cons e pre' ih =>
    have h1 : ¬ e.1 = k := fun h => hk (by simp [mapKeys, ← h])
    have h2 : k ∉ mapKeys pre' := fun h => hk (by simp [mapKeys] at h ⊢; exact Or.inr h)
    simp [mapSet, h1, ih h2]

theorem occurrences_mapSet (m : List (String × List Nat)) (k : String) (v : List Nat) (a : Nat) :
    occurrences (mapSet m k v) a + (mapGet [] m k).count a = occurrences m a + v.count a := by
  induction m with
  | nil => simp [mapSet, mapGet, occurrences]
  | cons e rest ih =>
    by_cases h : e.1 = k
    · simp only [mapSet, mapGet, h, if_true, occurrences, List.map_cons, List.sum_cons]
      omega
    · simp only [mapSet, mapGet, h, if_false, occurrences, List.map_cons, List.sum_cons]
      simp only [occurrences] at ih
      omega

/-! ## The release loops -/

theorem rescueOne_released (p : Nat) (g : Game) (x : Nat) :
    Released g (rescueOne p g x) [x] where
  players := rfl
  team := fun a => by simp [rescueOne]
  id := fun a => by simp [rescueOne]
  inBase := fun a => by simp [rescueOne]
  freed := fun a ha => by
    have : a = x := by simpa using ha
    simp [rescueOne, setHunted_hunted, this]
  other := fun a ha => by
    have : a ≠ x := by simpa using ha
    simp [rescueOne, setHunted_heap_other g x false a this]

theorem freeEnemy_released (g : Game) (x : Nat) :
    Released g (freeEnemy g x) [x] where
  players := rfl
  team := fun a => by simp [freeEnemy]
  id := fun a => by simp [freeEnemy]
  inBase := fun a => by simp [freeEnemy]
  freed := fun a ha => by
    have : a = x := by simpa using ha
    simp [freeEnemy, setHunted_hunted, this]
  other := fun a ha => by
    have : a ≠ x := by simpa using ha
    simp [freeEnemy, setHunted_heap_other g x false a this]

theorem Released.refl (g : Game) : Released g g [] where
  players := rfl
  team := fun _ => rfl
  id := fun _ => rfl
  inBase := fun _ => rfl
  freed := fun a ha => by cases ha
  other := fun _ _ => rfl

theorem Released.trans {g g' g'' : Game} {l l' : List Nat}
    (h : Released g g' l) (h' : Released g' g'' l') : Released g g'' (l ++ l') where
  players := h'.players.trans h.players
  team := fun a => (h'.team a).trans (h.team a)
  id := fun a => (h'.id a).trans (h.id a)
  inBase := fun a => (h'.inBase a).trans (h.inBase a)
  freed := fun a ha => by
    by_cases h2 : a ∈ l'
    · exact h'.freed a h2
    · have h1 : a ∈ l := by
        rcases List.mem_append.mp ha with h1 | h1
        · exact h1
        · exact absurd h1 h2
      rw [h'.other a h2]
      exact h.freed a h1
  other := fun a ha => by
    have h1 : a ∉ l := fun hh => ha (List.mem_append.mpr (Or.inl hh))
    have h2 : a ∉ l' := fun hh => ha (List.mem_append.mpr (Or.inr hh))
    rw [h'.other a h2, h.other a h1]

theorem foldl_rescueOne_released (p : Nat) (l : List Nat) (g : Game) :
    Released g (l.foldl (rescueOne p) g) l := by
  induction l generalizing g with
  | nil => exact Released.refl g
  | cons x rest ih =>
    have := (rescueOne_released p g x).trans (ih (rescueOne p g x))
    simpa using this

theorem foldl_freeEnemy_released (l : List Nat) (g : Game) :
    Released g (l.foldl freeEnemy g) l := by
  induction l generalizing g with
  | nil => exact Released.refl g
  | cons x rest ih =>
    have := (freeEnemy_released g x).trans (ih (freeEnemy g x))
    simpa using this

theorem rescueOne_metrics (p : Nat) (g : Game) (x : Nat) :
    (rescueOne p g x).metrics = g.metrics ++ rescueCalls g.heap p := by
  simp [rescueOne, rescueCalls]

theorem freeEnemy_metrics (g : Game) (x : Nat) :
    (freeEnemy g x).metrics = g.metrics ++ freeCalls g.heap x := by
  simp [freeEnemy, freeCalls]

theorem foldl_rescueOne_metrics (p : Nat) (l : List Nat) (g : Game) :
    (l.foldl (rescueOne p) g).metrics = g.metrics ++ l.flatMap (fun _ => rescueCalls g.heap p) := by
  induction l generalizing g with
  | nil => simp
  | cons x rest ih =>
    have hc : rescueCalls (rescueOne p g x).heap p = rescueCalls g.heap p := by
      simp [rescueCalls, (rescueOne_released p g x).team, (rescueOne_released p g x).id]
    rw [List.foldl_cons, ih, rescueOne_metrics, hc, List.flatMap_cons, List.append_assoc]

theorem foldl_freeEnemy_metrics (l : List Nat) (g : Game) :
    (l.foldl freeEnemy g).metrics = g.metrics ++ l.flatMap (freeCalls g.heap) := by
  induction l generalizing g with
  | nil => simp
  | cons x rest ih =>
    have hc : freeCalls (freeEnemy g x).heap = freeCalls g.heap := by
      funext a
      simp [freeCalls, (freeEnemy_released g x).team, (freeEnemy_released g x).id]
    rw [List.foldl_cons, ih, freeEnemy_metrics, hc, List.flatMap_cons, List.append_assoc]

theorem foldl_rescueOne_hunterBase (p : Nat) (l : List Nat) (g : Game) :
    (l.foldl (rescueOne p) g).hunterBase = g.hunterBase := by
  induction l generalizing g with
  | nil => rfl
  | cons x rest ih => rw [List.foldl_cons, ih]; rfl

theorem foldl_freeEnemy_hunterBase (l : List Nat) (g : Game) :
    (l.foldl freeEnemy g).hunterBase = g.hunterBase := by
  induction l generalizing g with
  | nil => rfl
  | cons x rest ih => rw [List.foldl_cons, ih]; rfl

theorem mem_rescuedOf (t : String) (es : List (String × List Nat)) (a : Nat) :
    a ∈ rescuedOf t es ↔ ∃ e ∈ es, t = hunts e.1 ∧ a ∈ e.2 := by
  simp only [rescuedOf, List.mem_flatMap]
  constructor
  · rintro ⟨e, he, ha⟩
    by_cases h : t = hunts e.1
    · rw [if_pos h] at ha
      exact ⟨e, he, h, ha⟩
    · rw [if_neg h] at ha
      cases ha
  · rintro ⟨e, he, h, ha⟩
    exact ⟨e, he, by rw [if_pos h]; exact ha⟩

theorem rescueEntry_released (p : Nat) (g : Game) (e : String × List Nat) :
    Released g (rescueEntry p g e) (if (g.heap p).team = hunts e.1 then e.2 else []) := by
  by_cases h : (g.heap p).team = hunts e.1
  · simp only [rescueEntry, if_pos h]
    have := foldl_rescueOne_released p e.2 g
    exact ⟨this.players, this.team, this.id, this.inBase, this.freed, this.other⟩
  · simp only [rescueEntry, if_neg h]
    exact Released.refl g

theorem rescueEntry_hunterBase (p : Nat) (g : Game) (e : String × List Nat) :
    (rescueEntry p g e).hunterBase =
      if (g.heap p).team = hunts e.1 then mapSet g.hunterBase e.1 [] else g.hunterBase := by
  by_cases h : (g.heap p).team = hunts e.1
  · simp only [rescueEntry, if_pos h, foldl_rescueOne_hunterBase]
  · simp only [rescueEntry, if_neg h]

theorem rescueEntry_metrics (p : Nat) (g : Game) (e : String × List Nat) :
    (rescueEntry p g e).metrics =
      g.metrics ++ (if (g.heap p).team = hunts e.1 then e.2 else []).flatMap
        (fun _ => rescueCalls g.heap p) := by
  by_cases h : (g.heap p).team = hunts e.1
  · simp only [rescueEntry, if_pos h, foldl_rescueOne_metrics]
  · simp [rescueEntry, if_neg h]

theorem foldl_rescueEntry_released (p : Nat) (es : List (String × List Nat)) (g : Game) :
    Released g (es.foldl (rescueEntry p) g) (rescuedOf (g.heap p).team es) := by
  induction es generalizing g with
  | nil => exact Released.refl g
  | cons e rest ih =>
    have h1 := rescueEntry_released p g e
    have h2 := ih (rescueEntry p g e)
    rw [h1.team p] at h2
    have := h1.trans h2
    simpa [rescuedOf] using this

theorem foldl_rescueEntry_metrics (p : Nat) (es : List (String × List Nat)) (g : Game) :
    (es.foldl (rescueEntry p) g).metrics =
      g.metrics ++ (rescuedOf (g.heap p).team es).flatMap (fun _ => rescueCalls g.heap p) := by
  induction es generalizing g with
  | nil => simp [rescuedOf]
  | cons e rest ih =>
    have h1 := rescueEntry_released p g e
    have hc : rescueCalls (rescueEntry p g e).heap p = rescueCalls g.heap p := by
      simp [rescueCalls, h1.team, h1.id]
    rw [List.foldl_cons, ih, rescueEntry_metrics, hc, h1.team p]
    simp [rescuedOf, List.flatMap_append]

theorem foldl_rescueEntry_bucket (p : Nat) (es : List (String × List Nat)) (g : Game)
    (B : String) :
    mapGet [] (es.foldl (rescueEntry p) g).hunterBase B =
      if B ∈ mapKeys es ∧ (g.heap p).team = hunts B then [] else mapGet [] g.hunterBase B := by
  induction es generalizing g with
  | nil => simp [mapKeys]
  | cons e rest ih =>
    have h1 := rescueEntry_released p g e
    have hk : B ∈ mapKeys (e :: rest) ↔ B = e.1 ∨ B ∈ mapKeys rest := by
      simp [mapKeys]
    rw [List.foldl_cons, ih, h1.team p, rescueEntry_hunterBase]
    by_cases hm : (g.heap p).team = hunts B
    · by_cases hr : B ∈ mapKeys rest
      · rw [if_pos (show B ∈ mapKeys rest ∧ _ from ⟨hr, hm⟩),
          if_pos (show B ∈ mapKeys (e :: rest) ∧ _ from ⟨hk.mpr (Or.inr hr), hm⟩)]
      · rw [if_neg (show ¬ (B ∈ mapKeys rest ∧ _) from fun h => hr h.1)]
        by_cases he : B = e.1
        · rw [if_pos (show B ∈ mapKeys (e :: rest) ∧ _ from ⟨hk.mpr (Or.inl he), hm⟩)]
          have h2 : (g.heap p).team = hunts e.1 := he ▸ hm
          rw [if_pos h2, he, mapGet_mapSet_same]
        · rw [if_neg (show ¬ (B ∈ mapKeys (e :: rest) ∧ _) from
            fun h => (hk.mp h.1).elim he hr)]
          by_cases h2 : (g.heap p).team = hunts e.1
          · rw [if_pos h2, mapGet_mapSet_other _ _ _ _ _ he]
          · rw [if_neg h2]
    · rw [if_neg (show ¬ (B ∈ mapKeys rest ∧ _) from fun h => hm h.2),
        if_neg (show ¬ (B ∈ mapKeys (e :: rest) ∧ _) from fun h => hm h.2)]
      by_cases h2 : (g.heap p).team = hunts e.1
      · have he : B ≠ e.1 := fun h => hm (h ▸ h2)
        rw [if_pos h2, mapGet_mapSet_other _ _ _ _ _ he]
      · rw [if_neg h2]

theorem foldl_rescueEntry_hunterBase (p : Nat) (es pre : List (String × List Nat)) (g : Game)
    (hg : g.hunterBase = pre ++ es) (hn : (mapKeys (pre ++ es)).Nodup) :
    (es.foldl (rescueEntry p) g).hunterBase = pre ++ es.map (clearedFor (g.heap p).team) := by
  induction es generalizing g pre with
  | nil => simpa using hg
  | cons e rest ih =>
    have h1 := rescueEntry_released p g e
    have hpre : e.1 ∉ mapKeys pre := by
      intro hmem
      simp only [mapKeys, List.map_append, List.map_cons] at hn hmem
      have := (List.nodup_append.mp hn).2.2
      exact this hmem (List.mem_cons_self _ _)
    have hkeys : mapKeys ((pre ++ [clearedFor (g.heap p).team e]) ++ rest) = mapKeys (pre ++ e :: rest) := by
      simp only [mapKeys, List.map_append, List.map_cons, List.map_nil, List.append_assoc,
        List.singleton_append, clearedFor]
      by_cases h2 : (g.heap p).team = hunts e.1
      · rw [if_pos h2]
      · rw [if_neg h2]
    have hb : (rescueEntry p g e).hunterBase = (pre ++ [clearedFor (g.heap p).team e]) ++ rest := by
      rw [rescueEntry_hunterBase, clearedFor, hg]
      by_cases h2 : (g.heap p).team = hunts e.1
      · rw [if_pos h2, if_pos h2]
        have := mapSet_append_of_not_mem pre rest e.1 e.2 [] hpre
        simpa using this
      · rw [if_neg h2, if_neg h2]
        simp
    have := ih (pre ++ [clearedFor (g.heap p).team e]) (rescueEntry p g e) hb (hkeys ▸ hn)
    rw [List.foldl_cons, this, h1.team p]
    simp

/-! ## The operations as a whole -/

theorem rescueTeammates_released (g : Game) (p : Nat) :
    Released g (rescueTeammates g p) (rescuedOf (g.heap p).team g.hunterBase) :=
  foldl_rescueEntry_released p g.hunterBase g

theorem rescueTeammates_metrics (g : Game) (p : Nat) :
    (rescueTeammates g p).metrics =
      g.metrics ++ (rescuedOf (g.heap p).team g.hunterBase).flatMap
        (fun _ => rescueCalls g.heap p) :=
  foldl_rescueEntry_metrics p g.hunterBase g

theorem rescueTeammates_bucket (g : Game) (p : Nat) (B : String) :
    bucket (rescueTeammates g p) B = if (g.heap p).team = hunts B then [] else bucket g B := by
  have h := foldl_rescueEntry_bucket p g.hunterBase g B
  simp only [bucket, rescueTeammates]
  rw [h]
  by_cases hm : (g.heap p).team = hunts B
  · rw [if_pos hm]
    by_cases hk : B ∈ mapKeys g.hunterBase
    · rw [if_pos ⟨hk, hm⟩]
    · rw [if_neg (fun hh => hk hh.1), mapGet_of_not_mem [] g.hunterBase B hk]
  · rw [if_neg hm, if_neg (fun hh => hm hh.2)]

theorem rescueTeammates_hunterBase (g : Game) (p : Nat) (hn : (mapKeys g.hunterBase).Nodup) :
    (rescueTeammates g p).hunterBase = g.hunterBase.map (clearedFor (g.heap p).team) := by
  have := foldl_rescueEntry_hunterBase p g.hunterBase [] g (by simp) (by simpa using hn)
  simpa [rescueTeammates] using this

theorem mem_bucket (g : Game) (B : String) (a : Nat) (ha : a ∈ bucket g B) :
    (B, bucket g B) ∈ g.hunterBase := by
  rcases mapGet_mem_or ([] : List Nat) g.hunterBase B with h | h
  · rw [bucket, mapGet_of_not_mem [] g.hunterBase B h] at ha
    cases ha
  · exact h

theorem commitTreason_released (g : Game) (p : Nat) :
    Released g (commitTreason g p) (bucket g (g.heap p).team) := by
  have := foldl_freeEnemy_released (bucket g (g.heap p).team) g
  exact ⟨this.players, this.team, this.id, this.inBase, this.freed, this.other⟩

theorem commitTreason_hunterBase (g : Game) (p : Nat) :
    (commitTreason g p).hunterBase = mapSet g.hunterBase (g.heap p).team [] := by
  have := foldl_freeEnemy_released (bucket g (g.heap p).team) g
  simp [commitTreason, foldl_freeEnemy_hunterBase, this.team]

theorem commitTreason_metrics (g : Game) (p : Nat) :
    (commitTreason g p).metrics =
      g.metrics ++ (bucket g (g.heap p).team).flatMap (freeCalls g.heap) ++
        [Metric.treasonCounterInc (g.heap p).team (g.heap p).id] := by
  have := foldl_freeEnemy_released (bucket g (g.heap p).team) g
  simp [commitTreason, foldl_freeEnemy_metrics, this.team, this.id]

theorem hunt_players (g : Game) (p t : Nat) : (hunt g p t).players = g.players := rfl

theorem hunt_hunterBase (g : Game) (p t : Nat) :
    (hunt g p t).hunterBase =
      mapSet g.hunterBase (g.heap p).team (bucket g (g.heap p).team ++ [t]) := by
  simp [hunt, bucket]

theorem hunt_metrics (g : Game) (p t : Nat) :
    (hunt g p t).metrics =
      g.metrics ++ [Metric.huntedCounterInc (g.heap t).team (g.heap t).id (g.heap p).id,
        Metric.huntedGaugeInc (g.heap t).team] := by
  simp [hunt]

theorem hunt_team (g : Game) (p t a : Nat) : ((hunt g p t).heap a).team = (g.heap a).team := by
  simp [hunt]

theorem hunt_id (g : Game) (p t a : Nat) : ((hunt g p t).heap a).id = (g.heap a).id := by
  simp [hunt]

theorem hunt_inBase (g : Game) (p t a : Nat) :
    ((hunt g p t).heap a).inBase = (g.heap a).inBase := by
  simp [hunt]

theorem hunt_hunted (g : Game) (p t a : Nat) :
    ((hunt g p t).heap a).hunted = if a = t then true else (g.heap a).hunted := by
  simp [hunt, setHunted_hunted]

theorem hunt_heap_other (g : Game) (p t a : Nat) (h : a ≠ t) :
    (hunt g p t).heap a = g.heap a := by
  simp [hunt, setHunted_heap_other g t true a h]

theorem enterBase_players (g : Game) (p : Nat) : (enterBase g p).players = g.players := rfl

theorem enterBase_hunterBase (g : Game) (p : Nat) :
    (enterBase g p).hunterBase = g.hunterBase := rfl

theorem enterBase_metrics (g : Game) (p : Nat) :
    (enterBase g p).metrics = g.metrics ++ [Metric.inBaseGaugeInc (g.heap p).team (g.heap p).id] := by
  simp [enterBase]

theorem enterBase_team (g : Game) (p a : Nat) :
    ((enterBase g p).heap a).team = (g.heap a).team := by
  simp [enterBase]

theorem enterBase_id (g : Game) (p a : Nat) : ((enterBase g p).heap a).id = (g.heap a).id := by
  simp [enterBase]

theorem enterBase_hunted (g : Game) (p a : Nat) :
    ((enterBase g p).heap a).hunted = (g.heap a).hunted := by
  simp [enterBase]

theorem enterBase_inBase (g : Game) (p a : Nat) :
    ((enterBase g p).heap a).inBase = if a = p then true else (g.heap a).inBase := by
  simp [enterBase, setInBase_inBase]

theorem exitBase_players (g : Game) (p : Nat) (d : Draws) :
    (exitBase g p d).players = g.players := by
  unfold exitBase; split <;> rfl

theorem exitBase_hunterBase (g : Game) (p : Nat) (d : Draws) :
    (exitBase g p d).hunterBase = g.hunterBase := by
  unfold exitBase; split <;> rfl

theorem exitBase_team (g : Game) (p : Nat) (d : Draws) (a : Nat) :
    ((exitBase g p d).heap a).team = (g.heap a).team := by
  unfold exitBase; split <;> simp

theorem exitBase_id (g : Game) (p : Nat) (d : Draws) (a : Nat) :
    ((exitBase g p d).heap a).id = (g.heap a).id := by
  unfold exitBase; split <;> simp

theorem exitBase_hunted (g : Game) (p : Nat) (d : Draws) (a : Nat) :
    ((exitBase g p d).heap a).hunted = (g.heap a).hunted := by
  unfold exitBase; split <;> simp

theorem exitBase_inBase (g : Game) (p : Nat) (d : Draws) (a : Nat) :
    ((exitBase g p d).heap a).inBase =
      if a = p ∧ (g.heap p).inBase = true ∧ d.exit < baseChance then false
      else (g.heap a).inBase := by
  unfold exitBase
  by_cases h : (g.heap p).inBase = true ∧ d.exit < baseChance
  · rw [if_pos h]
    simp only [emit_heap, setInBase_inBase]
    by_cases ha : a = p
    · rw [if_pos ha, if_pos ⟨ha, h⟩]
    · rw [if_neg ha, if_neg (fun hh => ha hh.1)]
  · rw [if_neg h, if_neg (fun hh => h hh.2)]

theorem exitBase_of_out (g : Game) (p : Nat) (d : Draws) (h : (g.heap p).inBase = false) :
    exitBase g p d = g := by
  simp [exitBase, h]

theorem exitBase_treasonEvents (g : Game) (p : Nat) (d : Draws) :
    treasonEvents (exitBase g p d).metrics = treasonEvents g.metrics := by
  unfold exitBase; split <;> simp [treasonEvents, List.filterMap_append]

theorem treasonEvents_rescueCalls (heap : Nat → Player) (p : Nat) (l : List Nat) :
    treasonEvents (l.flatMap (fun _ => rescueCalls heap p)) = [] := by
  induction l with
  | nil => rfl
  | cons x rest ih =>
    rw [List.flatMap_cons, treasonEvents, List.filterMap_append]
    rw [treasonEvents] at ih
    rw [ih]
    rfl

theorem treasonEvents_freeCalls (heap : Nat → Player) (l : List Nat) :
    treasonEvents (l.flatMap (freeCalls heap)) = [] := by
  induction l with
  | nil => rfl
  | cons x rest ih =>
    rw [List.flatMap_cons, treasonEvents, List.filterMap_append]
    rw [treasonEvents] at ih
    rw [ih]
    rfl

theorem rescuedEvents_freeCalls (heap : Nat → Player) (l : List Nat) :
    rescuedEvents (l.flatMap (freeCalls heap)) = l.map (fun a => ((heap a).team, (heap a).id)) := by
  induction l with
  | nil => rfl
  | cons x rest ih =>
    rw [List.flatMap_cons, rescuedEvents, List.filterMap_append]
    rw [rescuedEvents] at ih
    rw [ih]
    rfl

theorem treasonEvents_append (a b : List Metric) :
    treasonEvents (a ++ b) = treasonEvents a ++ treasonEvents b :=
  List.filterMap_append a b _

theorem rescuedEvents_append (a b : List Metric) :
    rescuedEvents (a ++ b) = rescuedEvents a ++ rescuedEvents b :=
  List.filterMap_append a b _

theorem hunts_cases (B : String) :
    (B = "fox" ∧ hunts B = "chicken") ∨ (B = "chicken" ∧ hunts B = "snake") ∨
      (B = "snake" ∧ hunts B = "fox") ∨ (B ∉ mapKeys huntsMap ∧ hunts B = "") := by
  by_cases h1 : B = "fox"
  · left; subst h1; exact ⟨rfl, by decide⟩
  · by_cases h2 : B = "chicken"
    · right; left; subst h2; exact ⟨rfl, by decide⟩
    · by_cases h3 : B = "snake"
      · right; right; left; subst h3; exact ⟨rfl, by decide⟩
      · right; right; right
        have e1 : ¬ "fox" = B := fun h => h1 h.symm
        have e2 : ¬ "chicken" = B := fun h => h2 h.symm
        have e3 : ¬ "snake" = B := fun h => h3 h.symm
        constructor
        · simp [mapKeys, huntsMap, h1, h2, h3]
        · simp [hunts, huntsMap, mapGet, e1, e2, e3]

/-! ## The configured topology -/

/-- C8. On the configured team set `hunts` is a total map into the team set
without fixed point and without 2-cycle, it returns to the start after three
steps, and every team is the prey of exactly one team. -/
theorem hunts_three_cycle (t : String) (ht : t ∈ mapKeys huntsMap) :
    (t, hunts t) ∈ huntsMap ∧ hunts t ∈ mapKeys huntsMap ∧
      hunts t ≠ t ∧ hunts (hunts t) ≠ t ∧ hunts (hunts (hunts t)) = t ∧
      ∃! h, h ∈ mapKeys huntsMap ∧ hunts h = t := by
  have key : ∀ h, h ∈ mapKeys huntsMap → h = "fox" ∨ h = "chicken" ∨ h = "snake" := by
    intro h hh
    simpa [mapKeys, huntsMap] using hh
  rcases key t ht with rfl | rfl | rfl
  · refine ⟨by decide, by decide, by decide, by decide, by decide, "snake", ⟨by decide, by decide⟩, ?_⟩
    rintro h ⟨hk, hh⟩
    rcases key h hk with rfl | rfl | rfl
    · exact absurd hh (by decide)
    · exact absurd hh (by decide)
    · rfl
  · refine ⟨by decide, by decide, by decide, by decide, by decide, "fox", ⟨by decide, by decide⟩, ?_⟩
    rintro h ⟨hk, hh⟩
    rcases key h hk with rfl | rfl | rfl
    · rfl
    · exact absurd hh (by decide)
    · exact absurd hh (by decide)
  · refine ⟨by decide, by decide, by decide, by decide, by decide, "chicken", ⟨by decide, by decide⟩, ?_⟩
    rintro h ⟨hk, hh⟩
    rcases key h hk with rfl | rfl | rfl
    · exact absurd hh (by decide)
    · rfl
    · exact absurd hh (by decide)

/-- Witness for C8: the team `fox`. -/
theorem hunts_three_cycle_witness :
    "fox" ∈ mapKeys huntsMap ∧
      (("fox", hunts "fox") ∈ huntsMap ∧ hunts "fox" ∈ mapKeys huntsMap ∧
        hunts "fox" ≠ "fox" ∧ hunts (hunts "fox") ≠ "fox" ∧ hunts (hunts (hunts "fox")) = "fox" ∧
        ∃! h, h ∈ mapKeys huntsMap ∧ hunts h = "fox") :=
  ⟨by decide, hunts_three_cycle "fox" (by decide)⟩

/-! ## findTarget -/

theorem findTarget_eq_none (heap : Nat → Player) (players : List Nat) (c : Nat) :
    findTarget heap players c = none ↔ ∀ x ∈ players, ¬ eligible heap c x := by
  induction players with
  | nil => simp [findTarget]
  | cons a rest ih =>
    by_cases h : eligible heap c a
    · simp [findTarget, h]
    · simp [findTarget, h, ih]

theorem findTarget_eq_some (heap : Nat → Player) (players : List Nat) (c t : Nat) :
    findTarget heap players c = some t ↔
      ∃ pre post, players = pre ++ t :: post ∧ eligible heap c t ∧
        ∀ x ∈ pre, ¬ eligible heap c x := by
  induction players with
  | nil => simp [findTarget]
  | cons a rest ih =>
    by_cases h : eligible heap c a
    · simp only [findTarget, h, if_true, Option.some.injEq]
      constructor
      · rintro rfl
        exact ⟨[], rest, rfl, h, by simp⟩
      · rintro ⟨pre, post, hp, _, hpre⟩
        cases pre with
        | nil => simpa using (List.cons.inj hp).1
        | cons b pre' =>
          have hb : a = b := (List.cons.inj hp).1
          exact absurd h (hb ▸ hpre b (by simp))
    · simp only [findTarget, h, if_false, ih]
      constructor
      · rintro ⟨pre, post, hp, ht, hpre⟩
        refine ⟨a :: pre, post, by simp [hp], ht, ?_⟩
        intro x hx
        rcases List.mem_cons.mp hx with rfl | hx
        · exact h
        · exact hpre x hx
      · rintro ⟨pre, post, hp, ht, hpre⟩
        cases pre with
        | nil =>
          have ha : a = t := (List.cons.inj hp).1
          exact absurd ht (ha ▸ h)
        | cons b pre' =>
          exact ⟨pre', post, (List.cons.inj hp).2, ht, fun x hx => hpre x (by simp [hx])⟩

/-- C3. `findTarget` returns `t` exactly when `t` stands in the roster behind a
prefix without eligible entry and `t` itself is on the caller's prey team, not
hunted and not in base; it returns `nil` exactly when no roster entry is eligible. -/
theorem findTarget_first_eligible (heap : Nat → Player) (players : List Nat) (p : Nat) :
    (∀ t, findTarget heap players p = some t ↔
      ∃ pre post, players = pre ++ t :: post ∧
        ((heap t).team = hunts (heap p).team ∧ (heap t).hunted = false ∧ (heap t).inBase = false) ∧
        ∀ x ∈ pre, ¬ ((heap x).team = hunts (heap p).team ∧ (heap x).hunted = false ∧
          (heap x).inBase = false)) ∧
    (findTarget heap players p = none ↔
      ∀ x ∈ players, ¬ ((heap x).team = hunts (heap p).team ∧ (heap x).hunted = false ∧
        (heap x).inBase = false)) :=
  ⟨fun t => findTarget_eq_some heap players p t, findTarget_eq_none heap players p⟩

/-! ## Hunt, rescue and betrayal -/

theorem play_eq_hunt (g : Game) (p : Nat) (d : Draws) (t : Nat)
    (hfree : (g.heap p).hunted = false) (hout : (g.heap p).inBase = false)
    (hr : ¬ d.rescue < rescueChance) (hb : ¬ d.base < baseChance)
    (ht : findTarget g.heap g.players p = some t) (hh : d.hunt < huntChance) :
    play g p d = hunt g p t := by
  rw [play, exitBase_of_out g p d hout, act, if_pos ⟨hfree, hout⟩]
  simp only [if_neg hr, if_neg hb, ht, if_pos hh]

/-- C4. When a free player `p` outside its base takes the hunt branch with
target `t`, then afterwards `t` is hunted, the bucket of `p`'s team is its old
contents followed by `t`, every other bucket is as before, the `hunted` and
`inBase` flags of every player other than `t` are as before, and so is the
`inBase` flag of `t`. -/
theorem play_hunt_effect (g : Game) (p : Nat) (d : Draws) (t : Nat)
    (hfree : (g.heap p).hunted = false) (hout : (g.heap p).inBase = false)
    (hr : ¬ d.rescue < rescueChance) (hb : ¬ d.base < baseChance)
    (ht : findTarget g.heap g.players p = some t) (hh : d.hunt < huntChance) :
    ((play g p d).heap t).hunted = true ∧
      bucket (play g p d) (g.heap p).team = bucket g (g.heap p).team ++ [t] ∧
      (∀ k, k ≠ (g.heap p).team → bucket (play g p d) k = bucket g k) ∧
      (∀ a, a ≠ t → ((play g p d).heap a).hunted = (g.heap a).hunted ∧
        ((play g p d).heap a).inBase = (g.heap a).inBase) ∧
      ((play g p d).heap t).inBase = (g.heap t).inBase := by
  rw [play_eq_hunt g p d t hfree hout hr hb ht hh]
  refine ⟨by simp [hunt_hunted], ?_, ?_, ?_, hunt_inBase g p t t⟩
  · rw [bucket, hunt_hunterBase, mapGet_mapSet_same]
  · intro k hk
    rw [bucket, hunt_hunterBase, mapGet_mapSet_other _ _ _ _ _ hk, bucket]
  · intro a ha
    rw [hunt_heap_other g p t a ha]
    exact ⟨rfl, rfl⟩

/-- Witness for C4: in the scenario player 1 hunts; afterwards the fox bucket
is `[player 2]` and player 2 is hunted. -/
theorem play_hunt_effect_witness :
    ((play scenario 0 huntDraws).heap 1).hunted = true ∧
      bucket (play scenario 0 huntDraws) "fox" = [1] ∧
      (∀ k, k ≠ "fox" → bucket (play scenario 0 huntDraws) k = bucket scenario k) ∧
      (∀ a, a ≠ 1 → ((play scenario 0 huntDraws).heap a).hunted = (scenario.heap a).hunted ∧
        ((play scenario 0 huntDraws).heap a).inBase = (scenario.heap a).inBase) ∧
      ((play scenario 0 huntDraws).heap 1).inBase = false :=
  play_hunt_effect scenario 0 huntDraws 1 (by decide) (by decide)
    (by norm_num [huntDraws, rescueChance]) (by norm_num [huntDraws, baseChance])
    (by decide) (by norm_num [huntDraws, huntChance])

/-- C5. After `rescueTeammates` by `p`, every bucket whose team hunts `p`'s team
is empty, and every player that was in such a bucket is no longer hunted. -/
theorem rescueTeammates_post (g : Game) (p : Nat) :
    (∀ B, hunts B = (g.heap p).team → bucket (rescueTeammates g p) B = []) ∧
      (∀ B a, hunts B = (g.heap p).team → a ∈ bucket g B →
        ((rescueTeammates g p).heap a).hunted = false) := by
  constructor
  · intro B hB
    rw [rescueTeammates_bucket, if_pos hB.symm]
  · intro B a hB ha
    apply (rescueTeammates_released g p).freed
    rw [mem_rescuedOf]
    exact ⟨(B, bucket g B), mem_bucket g B a ha, hB.symm, ha⟩

/-- Witness for C5: with player 2 (chicken) in the fox bucket, a rescue by
player 4 (chicken) empties the fox bucket and frees player 2. -/
theorem rescueTeammates_post_witness :
    bucket (rescueTeammates scenarioSecondChicken 3) "fox" = [] ∧
      ((rescueTeammates scenarioSecondChicken 3).heap 1).hunted = false :=
  ⟨(rescueTeammates_post scenarioSecondChicken 3).1 "fox" (by decide),
    (rescueTeammates_post scenarioSecondChicken 3).2 "fox" 1 (by decide) (by decide)⟩

/-- C6. `rescueTeammates` by `p` on a map with distinct keys leaves every
bucket whose team does not hunt `p`'s team as it was, leaves the `hunted` flag
of every player outside the buckets that hunt `p`'s team as it was, and
changes no `inBase` flag. -/
theorem rescueTeammates_frame (g : Game) (p : Nat) (hn : (mapKeys g.hunterBase).Nodup) :
    (∀ B, hunts B ≠ (g.heap p).team → bucket (rescueTeammates g p) B = bucket g B) ∧
      (∀ a, (∀ B, hunts B = (g.heap p).team → a ∉ bucket g B) →
        ((rescueTeammates g p).heap a).hunted = (g.heap a).hunted) ∧
      (∀ a, ((rescueTeammates g p).heap a).inBase = (g.heap a).inBase) := by
  refine ⟨?_, ?_, (rescueTeammates_released g p).inBase⟩
  · intro B hB
    rw [rescueTeammates_bucket, if_neg (fun h => hB h.symm)]
  · intro a ha
    rw [(rescueTeammates_released g p).other a]
    rw [mem_rescuedOf]
    rintro ⟨e, he, hm, hae⟩
    apply ha e.1 hm.symm
    rw [bucket, mapGet_of_mem [] g.hunterBase e.1 e.2 hn he]
    exact hae

/-- Witness for C6: with player 2 (chicken) in the fox bucket, a rescue by
player 3 (snake) keeps player 2 hunted and in the fox bucket. -/
theorem rescueTeammates_frame_witness :
    bucket (rescueTeammates scenarioCaptured 2) "fox" = [1] ∧
      ((rescueTeammates scenarioCaptured 2).heap 1).hunted = true :=
  ⟨(rescueTeammates_frame scenarioCaptured 2 (by decide)).1 "fox" (by decide),
    (rescueTeammates_frame scenarioCaptured 2 (by decide)).2.1 1 (by
      intro B hB
      rcases hunts_cases B with h | h | h | h
      · rw [h.2] at hB; exact absurd hB (by decide)
      · rw [h.1]; decide
      · rw [h.2] at hB; exact absurd hB (by decide)
      · rw [h.2] at hB; exact absurd hB (by decide))⟩

/-- C7. After `commitTreason` by `p` the bucket of `p`'s team is empty, every
player that was in it is no longer hunted, the treason counter was incremented
exactly once, with the labels of `p`, the rescued counter was incremented
exactly once per released captive, with the captive's own team and id, and
every other bucket is as before. -/
theorem commitTreason_post (g : Game) (p : Nat) :
    bucket (commitTreason g p) (g.heap p).team = [] ∧
      (∀ a, a ∈ bucket g (g.heap p).team → ((commitTreason g p).heap a).hunted = false) ∧
      treasonEvents (commitTreason g p).metrics =
        treasonEvents g.metrics ++ [((g.heap p).team, (g.heap p).id)] ∧
      rescuedEvents (commitTreason g p).metrics =
        rescuedEvents g.metrics ++
          (bucket g (g.heap p).team).map (fun a => ((g.heap a).team, (g.heap a).id)) ∧
      (∀ k, k ≠ (g.heap p).team → bucket (commitTreason g p) k = bucket g k) := by
  refine ⟨?_, (commitTreason_released g p).freed, ?_, ?_, ?_⟩
  · rw [bucket, commitTreason_hunterBase, mapGet_mapSet_same]
  · rw [commitTreason_metrics, treasonEvents_append, treasonEvents_append,
      treasonEvents_freeCalls, List.append_nil]
    rfl
  · rw [commitTreason_metrics, rescuedEvents_append, rescuedEvents_append,
      rescuedEvents_freeCalls]
    exact List.append_nil _
  · intro k hk
    rw [bucket, commitTreason_hunterBase, mapGet_mapSet_other _ _ _ _ _ hk, bucket]

/-- Witness for C7: with player 2 in the fox bucket, a betrayal by player 1
empties the fox bucket, frees player 2, and records one treason call for
player 1 and one rescued call for player 2. -/
theorem commitTreason_post_witness :
    bucket (commitTreason scenarioCaptured 0) "fox" = [] ∧
      ((commitTreason scenarioCaptured 0).heap 1).hunted = false ∧
      treasonEvents (commitTreason scenarioCaptured 0).metrics = [("fox", 1)] ∧
      rescuedEvents (commitTreason scenarioCaptured 0).metrics = [("chicken", 2)] :=
  ⟨(commitTreason_post scenarioCaptured 0).1,
    (commitTreason_post scenarioCaptured 0).2.1 1 (by decide),
    (commitTreason_post scenarioCaptured 0).2.2.1,
    (commitTreason_post scenarioCaptured 0).2.2.2.1⟩

/-! ## The decision of a free player outside its base -/

theorem rescueTeammates_treasonEvents (g : Game) (p : Nat) :
    treasonEvents (rescueTeammates g p).metrics = treasonEvents g.metrics := by
  rw [rescueTeammates_metrics, treasonEvents_append, treasonEvents_rescueCalls, List.append_nil]

theorem enterBase_treasonEvents (g : Game) (p : Nat) :
    treasonEvents (enterBase g p).metrics = treasonEvents g.metrics := by
  rw [enterBase_metrics, treasonEvents_append]
  exact List.append_nil _

theorem hunt_treasonEvents (g : Game) (p t : Nat) :
    treasonEvents (hunt g p t).metrics = treasonEvents g.metrics := by
  rw [hunt_metrics, treasonEvents_append]
  exact List.append_nil _

theorem commitTreason_treasonEvents (g : Game) (p : Nat) :
    treasonEvents (commitTreason g p).metrics =
      treasonEvents g.metrics ++ [((g.heap p).team, (g.heap p).id)] := by
  rw [commitTreason_metrics, treasonEvents_append, treasonEvents_append,
    treasonEvents_freeCalls, List.append_nil]
  rfl

theorem ne_append_singleton {α : Type} (l : List α) (x : α) : l ≠ l ++ [x] := by
  intro h
  have := congrArg List.length h
  simp at this

theorem act_of_free (g : Game) (p : Nat) (d : Draws)
    (hfree : (g.heap p).hunted = false) (hout : (g.heap p).inBase = false) :
    act g p d =
      if d.rescue < rescueChance then rescueTeammates g p
      else if d.base < baseChance then enterBase g p
      else
        match findTarget g.heap g.players p with
        | some t => if d.hunt < huntChance then hunt g p t else g
        | none => commitTreason g p := by
  rw [act, if_pos ⟨hfree, hout⟩]

/-- C10. For a player `p` that is free and outside its base after the exit
step, one iteration does exactly this, in this order of priority: the rescue
if the rescue draw is below 0.01; else it enters its base if the base draw is
below 0.2; else the hunt of the selected target if there is one and the hunt
draw is below 0.5; else the betrayal if there is no target; else nothing,
the state after the exit step being the result.  The treason counter is
incremented (once, with the labels of `p`) if and only if the rescue and base
draws both failed and no target exists. -/
theorem play_decision (g : Game) (p : Nat) (d : Draws)
    (hfree : ((exitBase g p d).heap p).hunted = false)
    (hout : ((exitBase g p d).heap p).inBase = false) :
    (d.rescue < rescueChance → play g p d = rescueTeammates (exitBase g p d) p) ∧
      (¬ d.rescue < rescueChance → d.base < baseChance →
        play g p d = enterBase (exitBase g p d) p) ∧
      (¬ d.rescue < rescueChance → ¬ d.base < baseChance →
        ∀ t, findTarget (exitBase g p d).heap (exitBase g p d).players p = some t →
          d.hunt < huntChance → play g p d = hunt (exitBase g p d) p t) ∧
      (¬ d.rescue < rescueChance → ¬ d.base < baseChance →
        findTarget (exitBase g p d).heap (exitBase g p d).players p = none →
          play g p d = commitTreason (exitBase g p d) p) ∧
      (¬ d.rescue < rescueChance → ¬ d.base < baseChance →
        ∀ t, findTarget (exitBase g p d).heap (exitBase g p d).players p = some t →
          ¬ d.hunt < huntChance → play g p d = exitBase g p d) ∧
      (treasonEvents (play g p d).metrics =
          treasonEvents g.metrics ++ [((g.heap p).team, (g.heap p).id)] ↔
        ¬ d.rescue < rescueChance ∧ ¬ d.base < baseChance ∧
          findTarget (exitBase g p d).heap (exitBase g p d).players p = none) := by
  have hact := act_of_free (exitBase g p d) p d hfree hout
  refine ⟨?_, ?_, ?_, ?_, ?_, ?_⟩
  · intro hr
    rw [play, hact, if_pos hr]
  · intro hr hb
    rw [play, hact, if_neg hr, if_pos hb]
  · intro hr hb t ht hh
    rw [play, hact, if_neg hr, if_neg hb, ht]
    simp only [if_pos hh]
  · intro hr hb ht
    rw [play, hact, if_neg hr, if_neg hb, ht]
  · intro hr hb t ht hh
    rw [play, hact, if_neg hr, if_neg hb, ht]
    simp only [if_neg hh]
  · rw [play, hact]
    by_cases hr : d.rescue < rescueChance
    · rw [if_pos hr, rescueTeammates_treasonEvents, exitBase_treasonEvents]
      exact ⟨fun h => absurd h (ne_append_singleton _ _), fun h => absurd hr h.1⟩
    · rw [if_neg hr]
      by_cases hb : d.base < baseChance
      · rw [if_pos hb, enterBase_treasonEvents, exitBase_treasonEvents]
        exact ⟨fun h => absurd h (ne_append_singleton _ _), fun h => absurd hb h.2.1⟩
      · rw [if_neg hb]
        cases ht : findTarget (exitBase g p d).heap (exitBase g p d).players p with
        | none =>
          simp only []
          rw [commitTreason_treasonEvents, exitBase_treasonEvents, exitBase_team, exitBase_id]
          exact ⟨fun _ => ⟨hr, hb, trivial⟩, fun _ => rfl⟩
        | some t =>
          simp only []
          by_cases hh : d.hunt < huntChance
          · rw [if_pos hh, hunt_treasonEvents, exitBase_treasonEvents]
            exact ⟨fun h => absurd h (ne_append_singleton _ _), fun h => by simp at h⟩
          · rw [if_neg hh, exitBase_treasonEvents]
            exact ⟨fun h => absurd h (ne_append_singleton _ _), fun h => by simp at h⟩

/-- Witness for C10: in the scenario after the capture, player 1 finds no
target and, with draws that fail the rescue and base tests, commits treason. -/
theorem play_decision_witness :
    play scenarioCaptured 0 idleDraws = commitTreason (exitBase scenarioCaptured 0 idleDraws) 0 ∧
      treasonEvents (play scenarioCaptured 0 idleDraws).metrics = [("fox", 1)] :=
  have h := play_decision scenarioCaptured 0 idleDraws (by decide) (by decide)
  have hr : ¬ idleDraws.rescue < rescueChance := by norm_num [idleDraws, rescueChance]
  have hb : ¬ idleDraws.base < baseChance := by norm_num [idleDraws, baseChance]
  have ht : findTarget (exitBase scenarioCaptured 0 idleDraws).heap
      (exitBase scenarioCaptured 0 idleDraws).players 0 = none := by decide
  ⟨h.2.2.2.1 hr hb ht, h.2.2.2.2.2.mpr ⟨hr, hb, ht⟩⟩

/-! ## The invariant of reachable states -/

theorem hunts_ne_self (B : String) (hB : B ∈ mapKeys huntsMap) : hunts B ≠ B := by
  rcases hunts_cases B with h | h | h | h
  · rw [h.2, h.1]; decide
  · rw [h.2, h.1]; decide
  · rw [h.2, h.1]; decide
  · exact absurd hB h.1

theorem nodup_huntsKeys : (mapKeys huntsMap).Nodup := by decide

theorem count_le_occurrences (m : List (String × List Nat)) (e : String × List Nat)
    (he : e ∈ m) (a : Nat) : e.2.count a ≤ occurrences m a := by
  induction m with
  | nil => cases he
  | cons x rest ih =>
    simp only [occurrences, List.map_cons, List.sum_cons]
    rcases List.mem_cons.mp he with rfl | he
    · omega
    · have := ih he
      simp only [occurrences] at this
      omega

theorem bucketsWith_eq_occurrences (m : List (String × List Nat)) (a : Nat)
    (h : occurrences m a ≤ 1) : bucketsWith m a = occurrences m a := by
  induction m with
  | nil => rfl
  | cons e rest ih =>
    simp only [occurrences, List.map_cons, List.sum_cons] at h
    have ih' := ih (by simp only [occurrences]; omega)
    simp only [occurrences] at ih'
    by_cases ha : a ∈ e.2
    · have h1 : 0 < e.2.count a := List.count_pos_iff.mpr ha
      simp only [bucketsWith, occurrences, List.map_cons, List.sum_cons, List.filter_cons,
        ha, decide_True, if_true, List.length_cons]
      simp only [bucketsWith] at ih'
      omega
    · have h1 : e.2.count a = 0 := List.count_eq_zero.mpr ha
      simp only [bucketsWith, occurrences, List.map_cons, List.sum_cons, List.filter_cons,
        ha, decide_False, Bool.false_eq_true, if_false]
      simp only [bucketsWith] at ih'
      omega

theorem occurrences_cleared (t : String) (m : List (String × List Nat)) (a : Nat) :
    occurrences (m.map (clearedFor t)) a + (rescuedOf t m).count a = occurrences m a := by
  induction m with
  | nil => rfl
  | cons e rest ih =>
    simp only [occurrences, rescuedOf] at ih
    by_cases h : t = hunts e.1
    · simp only [occurrences, rescuedOf, List.map_cons, List.sum_cons, List.flatMap_cons,
        clearedFor, if_pos h, List.count_append, List.count_nil]
      omega
    · simp only [occurrences, rescuedOf, List.map_cons, List.sum_cons, List.flatMap_cons,
        clearedFor, if_neg h, List.count_append, List.count_nil]
      omega

theorem mapKeys_cleared (t : String) (m : List (String × List Nat)) :
    mapKeys (m.map (clearedFor t)) = mapKeys m := by
  induction m with
  | nil => rfl
  | cons e rest ih =>
    simp only [mapKeys] at ih
    by_cases h : t = hunts e.1
    · simp [mapKeys, clearedFor, if_pos h, ih]
    · simp [mapKeys, clearedFor, if_neg h, ih]

theorem mem_cleared (t : String) (m : List (String × List Nat)) (e : String × List Nat)
    (he : e ∈ m.map (clearedFor t)) : e ∈ m ∨ e.2 = [] := by
  rcases List.mem_map.mp he with ⟨x, hx, rfl⟩
  by_cases h : t = hunts x.1
  · right; simp [clearedFor, if_pos h]
  · left; simpa [clearedFor, if_neg h] using hx

theorem Inv.nodupKeys {g : Game} (h : Inv g) : (mapKeys g.hunterBase).Nodup :=
  (List.Perm.nodup_iff h.keys).mpr nodup_huntsKeys

theorem Inv.teamKey {g : Game} (h : Inv g) (p : Nat) (hp : p ∈ g.players) :
    (g.heap p).team ∈ mapKeys g.hunterBase :=
  (List.Perm.mem_iff h.keys).mpr (h.teams p hp)

theorem Inv.of_released {g g' : Game} {l : List Nat} (h : Inv g) (R : Released g g' l)
    (hk : mapKeys g'.hunterBase = mapKeys g.hunterBase)
    (hocc : ∀ a, occurrences g'.hunterBase a + l.count a = occurrences g.hunterBase a)
    (hmem : ∀ e, e ∈ g'.hunterBase → e ∈ g.hunterBase ∨ e.2 = []) : Inv g' where
  keys := hk ▸ h.keys
  teams := fun p hp => by
    rw [R.team]
    exact h.teams p (R.players ▸ hp)
  occ := fun a => by
    have := hocc a
    have := h.occ a
    omega
  hunted := fun a => by
    by_cases ha : a ∈ l
    · have h1 : 0 < l.count a := List.count_pos_iff.mpr ha
      have h2 := hocc a
      have h3 := h.occ a
      rw [R.freed a ha]
      constructor
      · intro hh; cases hh
      · intro hh; omega
    · have h1 : l.count a = 0 := List.count_eq_zero.mpr ha
      have h2 := hocc a
      rw [R.other a ha, h.hunted a]
      omega
  base := fun a hb => by
    by_cases ha : a ∈ l
    · exact R.freed a ha
    · rw [R.other a ha] at hb ⊢
      exact h.base a hb
  prey := fun e he a ha => by
    rcases hmem e he with h1 | h1
    · rw [R.team]
      exact h.prey e h1 a ha
    · rw [h1] at ha
      cases ha

theorem inv_rescueTeammates {g : Game} (h : Inv g) (p : Nat) : Inv (rescueTeammates g p) := by
  have hb := rescueTeammates_hunterBase g p h.nodupKeys
  apply h.of_released (rescueTeammates_released g p)
  · rw [hb, mapKeys_cleared]
  · intro a
    rw [hb]
    exact occurrences_cleared _ _ a
  · intro e he
    rw [hb] at he
    exact mem_cleared _ _ e he

theorem inv_commitTreason {g : Game} (h : Inv g) (p : Nat) (hp : p ∈ g.players) :
    Inv (commitTreason g p) := by
  have hb := commitTreason_hunterBase g p
  apply h.of_released (commitTreason_released g p)
  · rw [hb, mapKeys_mapSet_of_mem _ _ _ (h.teamKey p hp)]
  · intro a
    rw [hb]
    have := occurrences_mapSet g.hunterBase (g.heap p).team [] a
    simpa [bucket] using this
  · intro e he
    rw [hb] at he
    rcases mem_mapSet _ _ _ e he with h1 | h1
    · exact Or.inl h1
    · right; rw [h1]

theorem inv_enterBase {g : Game} (h : Inv g) (p : Nat) (hp : (g.heap p).hunted = false) :
    Inv (enterBase g p) where
  keys := h.keys
  teams := fun q hq => by
    rw [enterBase_team]
    exact h.teams q hq
  occ := h.occ
  hunted := fun a => by
    rw [enterBase_hunted]
    exact h.hunted a
  base := fun a ha => by
    rw [enterBase_hunted]
    rw [enterBase_inBase] at ha
    by_cases hap : a = p
    · rw [hap]; exact hp
    · rw [if_neg hap] at ha
      exact h.base a ha
  prey := fun e he a ha => by
    rw [enterBase_team]
    exact h.prey e he a ha

theorem inv_exitBase {g : Game} (h : Inv g) (p : Nat) (d : Draws) : Inv (exitBase g p d) where
  keys := by rw [exitBase_hunterBase]; exact h.keys
  teams := fun q hq => by
    rw [exitBase_team]
    rw [exitBase_players] at hq
    exact h.teams q hq
  occ := by rw [exitBase_hunterBase]; exact h.occ
  hunted := fun a => by
    rw [exitBase_hunted, exitBase_hunterBase]
    exact h.hunted a
  base := fun a ha => by
    rw [exitBase_hunted]
    rw [exitBase_inBase] at ha
    split at ha
    · cases ha
    · exact h.base a ha
  prey := fun e he a ha => by
    rw [exitBase_team]
    rw [exitBase_hunterBase] at he
    exact h.prey e he a ha

theorem inv_hunt {g : Game} (h : Inv g) (p t : Nat) (hp : p ∈ g.players)
    (ht : eligible g.heap p t) : Inv (hunt g p t) := by
  have hb := hunt_hunterBase g p t
  have hocc : ∀ a, occurrences (hunt g p t).hunterBase a =
      occurrences g.hunterBase a + if a = t then 1 else 0 := by
    intro a
    have := occurrences_mapSet g.hunterBase (g.heap p).team (bucket g (g.heap p).team ++ [t]) a
    rw [hb]
    simp only [bucket, List.count_append, List.count_singleton, beq_iff_eq] at this ⊢
    have e : (if t = a then 1 else 0) = (if a = t then 1 else 0) := by
      by_cases hat : a = t
      · simp [hat]
      · have : ¬ t = a := fun hh => hat hh.symm
        simp [hat, this]
    omega
  have ht0 : occurrences g.hunterBase t = 0 := by
    have h1 := h.occ t
    have h2 := (h.hunted t).mpr
    by_cases h3 : occurrences g.hunterBase t = 1
    · have := h2 h3
      rw [ht.2.1] at this
      cases this
    · omega
  exact
    { keys := by rw [hb, mapKeys_mapSet_of_mem _ _ _ (h.teamKey p hp)]; exact h.keys
      teams := fun q hq => by
        rw [hunt_team]
        exact h.teams q hq
      occ := fun a => by
        rw [hocc]
        by_cases hat : a = t
        · rw [if_pos hat, hat, ht0]
        · rw [if_neg hat]; exact h.occ a
      hunted := fun a => by
        rw [hocc, hunt_hunted]
        by_cases hat : a = t
        · rw [if_pos hat, if_pos hat, hat, ht0]
          simp
        · rw [if_neg hat, if_neg hat]
          exact h.hunted a
      base := fun a ha => by
        rw [hunt_inBase] at ha
        rw [hunt_hunted]
        by_cases hat : a = t
        · rw [hat, ht.2.2] at ha
          cases ha
        · rw [if_neg hat]
          exact h.base a ha
      prey := fun e he a ha => by
        rw [hunt_team]
        rw [hb] at he
        rcases mem_mapSet _ _ _ e he with h1 | h1
        · exact h.prey e h1 a ha
        · rw [h1] at ha ⊢
          rcases List.mem_append.mp ha with h2 | h2
          · exact h.prey _ (mem_bucket g _ a h2) a h2
          · rw [List.mem_singleton.mp h2]
            exact ht.1 }

theorem findTarget_eligible (heap : Nat → Player) (players : List Nat) (p t : Nat)
    (h : findTarget heap players p = some t) : eligible heap p t ∧ t ∈ players := by
  rcases (findTarget_eq_some heap players p t).mp h with ⟨pre, post, hp, he, _⟩
  exact ⟨he, by rw [hp]; simp⟩

theorem inv_act {g : Game} (h : Inv g) (p : Nat) (d : Draws) (hp : p ∈ g.players) :
    Inv (act g p d) := by
  unfold act
  by_cases hg : (g.heap p).hunted = false ∧ (g.heap p).inBase = false
  · rw [if_pos hg]
    by_cases hr : d.rescue < rescueChance
    · rw [if_pos hr]; exact inv_rescueTeammates h p
    · rw [if_neg hr]
      by_cases hb : d.base < baseChance
      · rw [if_pos hb]; exact inv_enterBase h p hg.1
      · rw [if_neg hb]
        cases ht : findTarget g.heap g.players p with
        | none => exact inv_commitTreason h p hp
        | some t =>
          simp only []
          by_cases hh : d.hunt < huntChance
          · rw [if_pos hh]
            exact inv_hunt h p t hp (findTarget_eligible _ _ _ _ ht).1
          · rw [if_neg hh]; exact h
  · rw [if_neg hg]; exact h

theorem inv_play {g : Game} (h : Inv g) (p : Nat) (d : Draws) (hp : p ∈ g.players) :
    Inv (play g p d) :=
  inv_act (inv_exitBase h p d) p d (by rw [exitBase_players]; exact hp)

/-! ## The initial game -/

theorem addPlayer_some (teams : List String) (g g' : Game) (i : Nat)
    (h : addPlayer teams g i = some g') :
    ∃ t, t ∈ teams ∧ teams[i % teams.length]? = some t ∧
      g'.heap = store g.heap i { id := i + 1, team := t, hunted := false, inBase := true } ∧
      g'.players = g.players ++ [i] ∧ g'.hunterBase = g.hunterBase ∧
      g'.metrics = g.metrics ++ [Metric.inBaseGaugeInc t (i + 1)] := by
  unfold addPlayer at h
  by_cases h0 : teams.length = 0
  · rw [if_pos h0] at h
    cases h
  · rw [if_neg h0] at h
    cases ht : teams[i % teams.length]? with
    | none =>
      rw [ht] at h
      cases h
    | some t =>
      rw [ht] at h
      simp only [Option.some.injEq] at h
      refine ⟨t, List.getElem?_mem ht, rfl, ?_, ?_, ?_, ?_⟩
      · rw [← h]; rfl
      · rw [← h]; rfl
      · rw [← h]; rfl
      · rw [← h]; simp [emit, store]

theorem initPlayers_some (teams : List String) (n : Nat) (g : Game)
    (h : initPlayers teams n = some g) :
    g.hunterBase = [] ∧ (∀ a, (g.heap a).hunted = false) ∧
      (∀ p, p ∈ g.players → (g.heap p).team ∈ teams) := by
  induction n generalizing g with
  | zero =>
    simp only [initPlayers, Option.some.injEq] at h
    rw [← h]
    exact ⟨rfl, fun _ => rfl, fun p hp => by cases hp⟩
  | succ n ih =>
    simp only [initPlayers] at h
    cases h0 : initPlayers teams n with
    | none =>
      rw [h0] at h
      cases h
    | some g0 =>
      rw [h0] at h
      simp only [Option.some_bind] at h
      rcases addPlayer_some teams g0 g n h with ⟨t, ht, _, hheap, hpl, hhb, _⟩
      rcases ih g0 h0 with ⟨i1, i2, i3⟩
      refine ⟨hhb.trans i1, ?_, ?_⟩
      · intro a
        rw [hheap]
        by_cases ha : a = n
        · simp [store, ha]
        · simp only [store, if_neg ha]
          exact i2 a
      · intro p hp
        rw [hheap]
        by_cases ha : p = n
        · simp [store, ha, ht]
        · simp only [store, if_neg ha]
          rw [hpl] at hp
          rcases List.mem_append.mp hp with h1 | h1
          · exact i3 p h1
          · exact absurd (List.mem_singleton.mp h1) ha

theorem mapSet_of_not_mem {V : Type} (m : List (String × V)) (k : String) (v : V)
    (hk : k ∉ mapKeys m) : mapSet m k v = m ++ [(k, v)] := by
  induction m with
  | nil => rfl
  | cons e rest ih =>
    have h1 : ¬ e.1 = k := fun h => hk (by simp [mapKeys, ← h])
    have h2 : k ∉ mapKeys rest := fun h => hk (by simp [mapKeys] at h ⊢; exact Or.inr h)
    simp [mapSet, h1, ih h2]

theorem foldl_mapSet_empty (ts : List String) (m : List (String × List Nat))
    (hn : ts.Nodup) (hd : ∀ t, t ∈ ts → t ∉ mapKeys m) :
    ts.foldl (fun m t => mapSet m t []) m = m ++ ts.map (fun t => (t, [])) := by
  induction ts generalizing m with
  | nil => simp
  | cons t rest ih =>
    rw [List.nodup_cons] at hn
    rw [List.foldl_cons, mapSet_of_not_mem m t [] (hd t (List.mem_cons_self _ _))]
    rw [ih (m ++ [(t, [])]) hn.2]
    · simp
    · intro x hx hmem
      simp only [mapKeys, List.map_append, List.map_cons, List.map_nil, List.mem_append,
        List.mem_singleton] at hmem
      rcases hmem with h1 | h1
      · exact hd x (List.mem_cons_of_mem _ hx) h1
      · exact hn.1 (h1 ▸ hx)

theorem occurrences_empty_buckets (ts : List String) (a : Nat) :
    occurrences (ts.map (fun t => (t, ([] : List Nat)))) a = 0 := by
  induction ts with
  | nil => rfl
  | cons t rest ih =>
    simp only [occurrences] at ih
    simp only [occurrences, List.map_cons, List.sum_cons, List.count_nil, ih]

theorem inv_initializeGame (teams : List String) (numPlayers : Int) (g : Game)
    (ht : teamsOf teams) (h : initializeGame teams numPlayers = some g) : Inv g := by
  unfold initializeGame at h
  cases h0 : initPlayers teams numPlayers.toNat with
  | none =>
    rw [h0] at h
    cases h
  | some g0 =>
    rw [h0] at h
    simp only [Option.map_some', Option.some.injEq] at h
    rcases initPlayers_some teams _ g0 h0 with ⟨_, i2, i3⟩
    have hnd : teams.Nodup := (List.Perm.nodup_iff ht).mpr nodup_huntsKeys
    have hb : g.hunterBase = teams.map (fun t => (t, [])) := by
      rw [← h]
      have := foldl_mapSet_empty teams [] hnd (fun t _ hh => by cases hh)
      simpa using this
    have hheap : g.heap = g0.heap := by rw [← h]
    have hpl : g.players = g0.players := by rw [← h]
    exact
      { keys := by
          rw [hb]
          have : mapKeys (teams.map (fun t => (t, ([] : List Nat)))) = teams := by
            simp [mapKeys, Function.comp_def]
          rw [this]
          exact ht
        teams := fun p hp => by
          rw [hheap]
          exact (List.Perm.mem_iff ht).mp (i3 p (hpl ▸ hp))
        occ := fun a => by rw [hb, occurrences_empty_buckets]; omega
        hunted := fun a => by
          rw [hb, occurrences_empty_buckets, hheap, i2 a]
          simp
        base := fun a _ => by rw [hheap]; exact i2 a
        prey := fun e he a ha => by
          rw [hb] at he
          rcases List.mem_map.mp he with ⟨t, _, rfl⟩
          cases ha }

theorem inv_of_reachable {g : Game} (h : Reachable g) : Inv g := by
  induction h with
  | init teams n g ht hg => exact inv_initializeGame teams n g ht hg
  | step g p d _ hp ih => exact inv_play ih p d hp

theorem act_players (g : Game) (p : Nat) (d : Draws) : (act g p d).players = g.players := by
  unfold act
  by_cases hg : (g.heap p).hunted = false ∧ (g.heap p).inBase = false
  · rw [if_pos hg]
    by_cases hr : d.rescue < rescueChance
    · rw [if_pos hr]; exact (rescueTeammates_released g p).players
    · rw [if_neg hr]
      by_cases hb : d.base < baseChance
      · rw [if_pos hb]; rfl
      · rw [if_neg hb]
        cases findTarget g.heap g.players p with
        | none => exact (commitTreason_released g p).players
        | some t =>
          simp only []
          by_cases hh : d.hunt < huntChance
          · rw [if_pos hh]; rfl
          · rw [if_neg hh]
  · rw [if_neg hg]

theorem play_players (g : Game) (p : Nat) (d : Draws) : (play g p d).players = g.players := by
  rw [play, act_players, exitBase_players]

theorem reachable_startGame : Reachable startGame :=
  Reachable.init ["fox", "chicken", "snake"] 3 startGame (List.Perm.refl _) rfl

theorem reachable_afterFirstHunt : Reachable afterFirstHunt :=
  Reachable.step _ 0 exitDraws
    (Reachable.step _ 1 exitDraws reachable_startGame (by decide))
    (by rw [play_players]; decide)

theorem afterFirstHunt_captured :
    (afterFirstHunt.heap 1).hunted = true ∧ bucket afterFirstHunt "fox" = [1] ∧
      bucketsWith afterFirstHunt.hunterBase 1 = 1 := by
  have e1 : exitDraws.exit < baseChance := by norm_num [exitDraws, baseChance]
  have e2 : ¬ (exitDraws.rescue < rescueChance) := by norm_num [exitDraws, rescueChance]
  have e3 : ¬ (exitDraws.base < baseChance) := by norm_num [exitDraws, baseChance]
  have e4 : exitDraws.hunt < huntChance := by norm_num [exitDraws, huntChance]
  simp [afterFirstHunt, play, exitBase, act, startGame, e1, e2, e3, e4, store, emptyHeap,
    setInBase, emit, findTarget, eligible, hunts, huntsMap, mapGet, commitTreason, bucket,
    mapSet, hunt, setHunted, freeEnemy, bucketsWith]

/-! ## Invariants of the capture bookkeeping -/

/-- C1. In every reachable state the keys of the capture map are distinct, a
player is hunted if and only if exactly one bucket contains it, no player is
in more than one bucket, and no bucket holds a player twice. -/
theorem reachable_hunted_iff_one_bucket (g : Game) (h : Reachable g) :
    (mapKeys g.hunterBase).Nodup ∧
      (∀ a, (g.heap a).hunted = true ↔ bucketsWith g.hunterBase a = 1) ∧
      (∀ a, bucketsWith g.hunterBase a ≤ 1) ∧
      (∀ e, e ∈ g.hunterBase → e.2.Nodup) := by
  have hi := inv_of_reachable h
  refine ⟨hi.nodupKeys, ?_, ?_, ?_⟩
  · intro a
    rw [bucketsWith_eq_occurrences _ a (hi.occ a)]
    exact hi.hunted a
  · intro a
    rw [bucketsWith_eq_occurrences _ a (hi.occ a)]
    exact hi.occ a
  · intro e he
    rw [List.nodup_iff_count_le_one]
    intro a
    exact le_trans (count_le_occurrences _ e he a) (hi.occ a)

/-- Witness for C1: the state after the first capture. -/
theorem reachable_hunted_iff_one_bucket_witness :
    Reachable afterFirstHunt ∧
      ((mapKeys afterFirstHunt.hunterBase).Nodup ∧
        (∀ a, (afterFirstHunt.heap a).hunted = true ↔ bucketsWith afterFirstHunt.hunterBase a = 1) ∧
        (∀ a, bucketsWith afterFirstHunt.hunterBase a ≤ 1) ∧
        (∀ e, e ∈ afterFirstHunt.hunterBase → e.2.Nodup)) :=
  ⟨reachable_afterFirstHunt,
    reachable_hunted_iff_one_bucket afterFirstHunt reachable_afterFirstHunt⟩

/-- C2. In every reachable state a player in base is in no bucket, hence not
hunted; and in any state `findTarget` returns only players outside their base. -/
theorem reachable_inBase_not_captive (g : Game) (h : Reachable g) :
    (∀ a, (g.heap a).inBase = true →
      (∀ B, a ∉ bucket g B) ∧ (∀ e, e ∈ g.hunterBase → a ∉ e.2) ∧ (g.heap a).hunted = false) ∧
      (∀ p t, findTarget g.heap g.players p = some t → (g.heap t).inBase = false) := by
  have hi := inv_of_reachable h
  constructor
  · intro a ha
    have hh := hi.base a ha
    have hent : ∀ e, e ∈ g.hunterBase → a ∉ e.2 := by
      intro e he hae
      have h1 : 0 < e.2.count a := List.count_pos_iff.mpr hae
      have h2 := count_le_occurrences _ e he a
      have h3 := hi.occ a
      have h4 : occurrences g.hunterBase a = 1 := by omega
      rw [(hi.hunted a).mpr h4] at hh
      cases hh
    exact ⟨fun B hB => hent _ (mem_bucket g B a hB) hB, hent, hh⟩
  · intro p t ht
    exact (findTarget_eligible _ _ _ _ ht).1.2.2

/-- Witness for C2: the state after the first capture. -/
theorem reachable_inBase_not_captive_witness :
    Reachable afterFirstHunt ∧
      ((∀ a, (afterFirstHunt.heap a).inBase = true →
        (∀ B, a ∉ bucket afterFirstHunt B) ∧ (∀ e, e ∈ afterFirstHunt.hunterBase → a ∉ e.2) ∧
          (afterFirstHunt.heap a).hunted = false) ∧
        (∀ p t, findTarget afterFirstHunt.heap afterFirstHunt.players p = some t →
          (afterFirstHunt.heap t).inBase = false)) :=
  ⟨reachable_afterFirstHunt,
    reachable_inBase_not_captive afterFirstHunt reachable_afterFirstHunt⟩

/-- C9. In every reachable state a player in the bucket of team `B` is on the
team `hunts B`, which is not `B`; the target a roster player selects is another
player, of another team; and every player that `rescueTeammates` called by `p`
releases is on `p`'s team. -/
theorem reachable_captives_are_prey (g : Game) (h : Reachable g) :
    (∀ B a, a ∈ bucket g B → (g.heap a).team = hunts B ∧ (g.heap a).team ≠ B) ∧
      (∀ p, p ∈ g.players → ∀ t, findTarget g.heap g.players p = some t →
        t ≠ p ∧ (g.heap t).team ≠ (g.heap p).team) ∧
      (∀ p a, (g.heap a).hunted = true → ((rescueTeammates g p).heap a).hunted = false →
        (g.heap a).team = (g.heap p).team) := by
  have hi := inv_of_reachable h
  refine ⟨?_, ?_, ?_⟩
  · intro B a ha
    have he := mem_bucket g B a ha
    have ht := hi.prey _ he a ha
    have hB : B ∈ mapKeys huntsMap :=
      (List.Perm.mem_iff hi.keys).mp (List.mem_map.mpr ⟨_, he, rfl⟩)
    exact ⟨ht, by rw [ht]; exact hunts_ne_self B hB⟩
  · intro p hp t ht
    have he := (findTarget_eligible _ _ _ _ ht).1
    have hne : (g.heap t).team ≠ (g.heap p).team := by
      rw [he.1]
      exact hunts_ne_self _ (hi.teams p hp)
    exact ⟨fun htp => hne (by rw [htp]), hne⟩
  · intro p a h1 h2
    by_cases ha : a ∈ rescuedOf (g.heap p).team g.hunterBase
    · rcases (mem_rescuedOf _ _ a).mp ha with ⟨e, he, hm, hae⟩
      rw [hi.prey e he a hae, hm]
    · rw [(rescueTeammates_released g p).other a ha, h1] at h2
      cases h2

/-- Witness for C9: the state after the first capture. -/
theorem reachable_captives_are_prey_witness :
    Reachable afterFirstHunt ∧
      ((∀ B a, a ∈ bucket afterFirstHunt B →
        (afterFirstHunt.heap a).team = hunts B ∧ (afterFirstHunt.heap a).team ≠ B) ∧
        (∀ p, p ∈ afterFirstHunt.players →
          ∀ t, findTarget afterFirstHunt.heap afterFirstHunt.players p = some t →
            t ≠ p ∧ (afterFirstHunt.heap t).team ≠ (afterFirstHunt.heap p).team) ∧
        (∀ p a, (afterFirstHunt.heap a).hunted = true →
          ((rescueTeammates afterFirstHunt p).heap a).hunted = false →
            (afterFirstHunt.heap a).team = (afterFirstHunt.heap p).team)) :=
  ⟨reachable_afterFirstHunt,
    reachable_captives_are_prey afterFirstHunt reachable_afterFirstHunt⟩

/-! ## Hunted players -/

theorem play_of_hunted (g : Game) (p : Nat) (d : Draws) (hi : Inv g)
    (hh : (g.heap p).hunted = true) : play g p d = g := by
  have hb : (g.heap p).inBase = false := by
    cases hv : (g.heap p).inBase with
    | false => rfl
    | true =>
      rw [hi.base p hv] at hh
      cases hh
  rw [play, exitBase_of_out g p d hb, act, if_neg]
  rintro ⟨h1, _⟩
  rw [h1] at hh
  cases hh

/-- C11. In every reachable state one iteration of a hunted player returns
the game as it was, flags, buckets and metrics, whatever the draws. -/
theorem play_hunted_inert (g : Game) (p : Nat) (d : Draws) (h : Reachable g)
    (hh : (g.heap p).hunted = true) : play g p d = g :=
  play_of_hunted g p d (inv_of_reachable h) hh

/-- Witness for C11: player 2, captured in the state after the first capture. -/
theorem play_hunted_inert_witness :
    Reachable afterFirstHunt ∧ (afterFirstHunt.heap 1).hunted = true ∧
      play afterFirstHunt 1 huntDraws = afterFirstHunt :=
  ⟨reachable_afterFirstHunt, afterFirstHunt_captured.1,
    play_hunted_inert afterFirstHunt 1 huntDraws reachable_afterFirstHunt
      afterFirstHunt_captured.1⟩

/-! ## initializeGame in detail -/

theorem addPlayer_isSome (teams : List String) (g : Game) (i : Nat) (ht : teams ≠ []) :
    ∃ g', addPlayer teams g i = some g' := by
  have hl : 0 < teams.length := List.length_pos.mpr ht
  have hi : i % teams.length < teams.length := Nat.mod_lt _ hl
  unfold addPlayer
  rw [if_neg (by omega), List.getElem?_eq_getElem hi]
  exact ⟨_, rfl⟩

theorem initPlayers_isSome (teams : List String) (n : Nat) (ht : teams ≠ []) :
    ∃ g, initPlayers teams n = some g := by
  induction n with
  | zero => exact ⟨_, rfl⟩
  | succ n ih =>
    rcases ih with ⟨g, hg⟩
    rcases addPlayer_isSome teams g n ht with ⟨g', hg'⟩
    exact ⟨g', by simp [initPlayers, hg, hg']⟩

theorem initPlayers_detail (teams : List String) (n : Nat) (g : Game)
    (h : initPlayers teams n = some g) :
    g.players = List.range n ∧
      (∀ i, i < n → ∃ t, teams[i % teams.length]? = some t ∧
        g.heap i = { id := i + 1, team := t, hunted := false, inBase := true }) ∧
      (∀ t, huntedGaugeValue g.metrics t = 0) ∧ capturedTotal g.metrics = 0 ∧
      rescuedTotal g.metrics = 0 ∧
      (∀ i, i < n → inBaseGaugeValue g.metrics (g.heap i).team (i + 1) = 1) ∧
      (∀ t i, n < i → inBaseGaugeValue g.metrics t i = 0) := by
  induction n generalizing g with
  | zero =>
    simp only [initPlayers, Option.some.injEq] at h
    rw [← h]
    refine ⟨rfl, fun i hi => absurd hi (Nat.not_lt_zero i), fun _ => rfl, rfl, rfl,
      fun i hi => absurd hi (Nat.not_lt_zero i), fun _ _ _ => rfl⟩
  | succ n ih =>
    simp only [initPlayers] at h
    cases h0 : initPlayers teams n with
    | none =>
      rw [h0] at h
      cases h
    | some g0 =>
      rw [h0] at h
      simp only [Option.some_bind] at h
      rcases addPlayer_some teams g0 g n h with ⟨t, _, htn, hheap, hpl, _, hms⟩
      rcases ih g0 h0 with ⟨i1, i2, i3, i4, i5, i6, i7⟩
      have hold : ∀ i, i < n → g.heap i = g0.heap i := by
        intro i hi
        rw [hheap]
        simp [store, Nat.ne_of_lt hi]
      have hnew : g.heap n = { id := n + 1, team := t, hunted := false, inBase := true } := by
        rw [hheap]
        simp [store]
      refine ⟨?_, ?_, ?_, ?_, ?_, ?_, ?_⟩
      · rw [hpl, i1, List.range_succ]
      · intro i hi
        by_cases hin : i = n
        · rw [hin]
          exact ⟨t, htn, hnew⟩
        · rw [hold i (by omega)]
          exact i2 i (by omega)
      · intro T
        rw [hms, huntedGaugeValue, List.map_append, List.sum_append]
        have := i3 T
        rw [huntedGaugeValue] at this
        rw [this]
        rfl
      · rw [hms, capturedTotal, List.countP_append]
        rw [capturedTotal] at i4
        rw [i4]
        rfl
      · rw [hms, rescuedTotal, rescuedEvents_append, List.length_append]
        rw [rescuedTotal] at i5
        rw [i5]
        rfl
      · intro i hi
        rw [hms, inBaseGaugeValue, List.map_append, List.sum_append]
        by_cases hin : i = n
        · rw [hin, hnew]
          have := i7 t (n + 1) (Nat.lt_succ_self n)
          rw [inBaseGaugeValue] at this
          rw [this]
          simp [inBaseGaugeDelta]
        · have := i6 i (by omega)
          rw [inBaseGaugeValue] at this
          rw [hold i (by omega), this]
          have hne : ¬ (n + 1 = i + 1) := by omega
          simp [inBaseGaugeDelta, hne]
      · intro T i hi
        rw [hms, inBaseGaugeValue, List.map_append, List.sum_append]
        have := i7 T i (by omega)
        rw [inBaseGaugeValue] at this
        rw [this]
        have hne : ¬ (n + 1 = i) := by omega
        simp [inBaseGaugeDelta, hne]

theorem mapGet_all_empty (m : List (String × List Nat)) (k : String)
    (h : ∀ e, e ∈ m → e.2 = []) : mapGet [] m k = [] := by
  rcases mapGet_mem_or ([] : List Nat) m k with h1 | h1
  · exact mapGet_of_not_mem [] m k h1
  · exact h _ h1

theorem foldl_mapSet_buckets (ts : List String) (m : List (String × List Nat))
    (hm : ∀ e, e ∈ m → e.2 = []) :
    (∀ e, e ∈ ts.foldl (fun m t => mapSet m t []) m → e.2 = []) ∧
      (∀ k, k ∈ mapKeys (ts.foldl (fun m t => mapSet m t []) m) ↔ k ∈ mapKeys m ∨ k ∈ ts) := by
  induction ts generalizing m with
  | nil => exact ⟨hm, fun k => by simp⟩
  | cons t rest ih =>
    have hm' : ∀ e, e ∈ mapSet m t [] → e.2 = [] := by
      intro e he
      rcases mem_mapSet m t [] e he with h1 | h1
      · exact hm e h1
      · rw [h1]
    rcases ih (mapSet m t []) hm' with ⟨h1, h2⟩
    refine ⟨h1, ?_⟩
    intro k
    rw [List.foldl_cons, h2]
    by_cases ht : t ∈ mapKeys m
    · rw [mapKeys_mapSet_of_mem m t [] ht]
      constructor
      · rintro (h | h)
        · exact Or.inl h
        · exact Or.inr (List.mem_cons_of_mem _ h)
      · rintro (h | h)
        · exact Or.inl h
        · rcases List.mem_cons.mp h with h | h
          · exact Or.inl (h ▸ ht)
          · exact Or.inr h
    · rw [mapKeys_mapSet_of_not_mem m t [] ht]
      simp only [List.mem_append, List.mem_singleton, List.mem_cons]
      tauto

theorem initializeGame_detail (teams : List String) (numPlayers : Int) (g : Game)
    (h : initializeGame teams numPlayers = some g) :
    ∃ g0, initPlayers teams numPlayers.toNat = some g0 ∧ g.heap = g0.heap ∧
      g.players = g0.players ∧ g.metrics = g0.metrics ∧
      g.hunterBase = teams.foldl (fun m t => mapSet m t []) [] := by
  unfold initializeGame at h
  cases h0 : initPlayers teams numPlayers.toNat with
  | none =>
    rw [h0] at h
    cases h
  | some g0 =>
    rw [h0] at h
    simp only [Option.map_some', Option.some.injEq] at h
    exact ⟨g0, rfl, by rw [← h], by rw [← h], by rw [← h], by rw [← h]⟩

theorem initializeGame_isSome (teams : List String) (numPlayers : Int) (ht : teams ≠ []) :
    ∃ g, initializeGame teams numPlayers = some g := by
  rcases initPlayers_isSome teams numPlayers.toNat ht with ⟨g0, h0⟩
  exact ⟨_, by rw [initializeGame, h0]; rfl⟩

/-- C13. For a non-empty team list and `n ≥ 0`, `initializeGame(n)` returns a
game whose roster has exactly `n` players, the `i`-th with id `i + 1`, team
`teams[i % len(teams)]`, not hunted and in base; the ids of the roster are
pairwise distinct, and every team has a bucket, which is empty. -/
theorem initializeGame_initial (teams : List String) (n : Int) (ht : teams ≠ [])
    (hn : 0 ≤ n) :
    ∃ g, initializeGame teams n = some g ∧ (g.players.length : Int) = n ∧
      (∀ i, i < g.players.length → ∃ a t, g.players[i]? = some a ∧
        teams[i % teams.length]? = some t ∧
        g.heap a = { id := i + 1, team := t, hunted := false, inBase := true }) ∧
      (g.players.map (fun a => (g.heap a).id)).Nodup ∧
      (∀ t, t ∈ teams → t ∈ mapKeys g.hunterBase ∧ bucket g t = []) := by
  rcases initializeGame_isSome teams n ht with ⟨g, hg⟩
  rcases initializeGame_detail teams n g hg with ⟨g0, h0, hheap, hpl, _, hhb⟩
  rcases initPlayers_detail teams _ g0 h0 with ⟨i1, i2, _⟩
  have hplayers : g.players = List.range n.toNat := hpl.trans i1
  refine ⟨g, hg, ?_, ?_, ?_, ?_⟩
  · rw [hplayers, List.length_range]
    exact Int.toNat_of_nonneg hn
  · intro i hi
    rw [hplayers, List.length_range] at hi
    rcases i2 i hi with ⟨t, ht1, ht2⟩
    refine ⟨i, t, ?_, ht1, by rw [hheap]; exact ht2⟩
    rw [hplayers, List.getElem?_range hi]
  · rw [hplayers]
    have : (List.range n.toNat).map (fun a => (g.heap a).id) =
        (List.range n.toNat).map (fun a => a + 1) := by
      apply List.map_congr_left
      intro a ha
      rcases i2 a (List.mem_range.mp ha) with ⟨t, _, ht2⟩
      rw [hheap, ht2]
    rw [this]
    exact (List.nodup_range _).map (fun a b hab => by omega)
  · intro t htm
    have := foldl_mapSet_buckets teams [] (fun e he => by cases he)
    rw [← hhb] at this
    exact ⟨(this.2 t).mpr (Or.inr htm), mapGet_all_empty _ _ this.1⟩

/-- Witness for C13: three teams and four players. -/
theorem initializeGame_initial_witness :
    ∃ g, initializeGame ["chicken", "fox", "snake"] 4 = some g ∧ (g.players.length : Int) = 4 ∧
      (∀ i, i < g.players.length → ∃ a t, g.players[i]? = some a ∧
        ["chicken", "fox", "snake"][i % 3]? = some t ∧
        g.heap a = { id := i + 1, team := t, hunted := false, inBase := true }) ∧
      (g.players.map (fun a => (g.heap a).id)).Nodup ∧
      (∀ t, t ∈ ["chicken", "fox", "snake"] → t ∈ mapKeys g.hunterBase ∧ bucket g t = []) :=
  initializeGame_initial ["chicken", "fox", "snake"] 4 (by decide) (by decide)

/-! ## The rescued counter -/

theorem rescuedEvents_rescueCalls (heap : Nat → Player) (p : Nat) (l : List Nat) :
    rescuedEvents (l.flatMap (fun _ => rescueCalls heap p)) =
      List.replicate l.length ((heap p).team, (heap p).id) := by
  induction l with
  | nil => rfl
  | cons x rest ih =>
    rw [List.flatMap_cons, rescuedEvents_append, ih]
    rfl

theorem rescueTeammates_rescuedEvents (g : Game) (p : Nat) :
    rescuedEvents (rescueTeammates g p).metrics =
      rescuedEvents g.metrics ++
        List.replicate (rescuedOf (g.heap p).team g.hunterBase).length
          ((g.heap p).team, (g.heap p).id) := by
  rw [rescueTeammates_metrics, rescuedEvents_append, rescuedEvents_rescueCalls]

theorem reachable_startFour : Reachable startFour :=
  Reachable.init ["chicken", "fox", "snake"] 4 startFour (by decide) rfl

theorem reachable_chickenCaptured : Reachable chickenCaptured :=
  Reachable.step _ 1 exitDraws
    (Reachable.step _ 0 exitDraws reachable_startFour (by decide))
    (by rw [play_players]; decide)

/-- C16, the code at the failing input. In the reachable state where player 1
(chicken) sits in the fox bucket, the iteration in which player 4 (chicken)
rescues releases player 1, and the only call on the rescued counter carries
the labels of player 4, not of player 1. -/
theorem rescue_labels_rescuer :
    Reachable chickenCaptured ∧ 3 ∈ chickenCaptured.players ∧
      bucket chickenCaptured "fox" = [0] ∧ (chickenCaptured.heap 0).hunted = true ∧
      ((chickenCaptured.heap 0).team, (chickenCaptured.heap 0).id) = ("chicken", 1) ∧
      ((play chickenCaptured 3 rescueDraws).heap 0).hunted = false ∧
      bucket (play chickenCaptured 3 rescueDraws) "fox" = [] ∧
      rescuedEvents (play chickenCaptured 3 rescueDraws).metrics = [("chicken", 4)] := by
  have e1 : exitDraws.exit < baseChance := by norm_num [exitDraws, baseChance]
  have e2 : ¬ (exitDraws.rescue < rescueChance) := by norm_num [exitDraws, rescueChance]
  have e3 : ¬ (exitDraws.base < baseChance) := by norm_num [exitDraws, baseChance]
  have e4 : exitDraws.hunt < huntChance := by norm_num [exitDraws, huntChance]
  have r1 : rescueDraws.exit < baseChance := by norm_num [rescueDraws, baseChance]
  have r2 : rescueDraws.rescue < rescueChance := by norm_num [rescueDraws, rescueChance]
  refine ⟨reachable_chickenCaptured, by rw [chickenCaptured, play_players, play_players]; decide,
    ?_⟩
  simp [chickenCaptured, play, exitBase, act, startFour, e1, e2, e3, e4, r1, r2, store,
    emptyHeap, setInBase, emit, findTarget, eligible, hunts, huntsMap, mapGet, commitTreason,
    bucket, mapSet, hunt, setHunted, freeEnemy, rescueTeammates, rescueEntry, rescueOne,
    rescuedEvents]

/-! ## Captives as one list -/

theorem occurrences_eq_count (m : List (String × List Nat)) (a : Nat) :
    occurrences m a = (captives m).count a := by
  induction m with
  | nil => rfl
  | cons e rest ih =>
    simp only [occurrences] at ih
    simp only [occurrences, captives, List.map_cons, List.sum_cons, List.flatMap_cons,
      List.count_append, ih]

theorem captives_mapSet_perm (m : List (String × List Nat)) (k : String) (v : List Nat) :
    (captives (mapSet m k v) ++ mapGet [] m k).Perm (captives m ++ v) := by
  rw [List.perm_iff_count]
  intro a
  have := occurrences_mapSet m k v a
  rw [occurrences_eq_count, occurrences_eq_count] at this
  rw [List.count_append, List.count_append]
  exact this

theorem captives_cleared_perm (t : String) (m : List (String × List Nat)) :
    (captives (m.map (clearedFor t)) ++ rescuedOf t m).Perm (captives m) := by
  rw [List.perm_iff_count]
  intro a
  have := occurrences_cleared t m a
  rw [occurrences_eq_count, occurrences_eq_count] at this
  rw [List.count_append]
  exact this

theorem length_captives (m : List (String × List Nat)) :
    (captives m).length = (m.map (fun e => e.2.length)).sum := by
  induction m with
  | nil => rfl
  | cons e rest ih =>
    simp only [captives] at ih
    simp only [captives, List.flatMap_cons, List.length_append, List.map_cons, List.sum_cons, ih]

theorem mem_captives (m : List (String × List Nat)) (a : Nat) :
    a ∈ captives m ↔ ∃ e, e ∈ m ∧ a ∈ e.2 := by
  simp [captives, List.mem_flatMap]

theorem countP_team_const (heap : Nat → Player) (l : List Nat) (c t : String)
    (h : ∀ a, a ∈ l → (heap a).team = c) :
    l.countP (fun a => decide ((heap a).team = t)) = if c = t then l.length else 0 := by
  induction l with
  | nil => simp
  | cons x rest ih =>
    have hx := h x (List.mem_cons_self _ _)
    have ih' := ih (fun a ha => h a (List.mem_cons_of_mem _ ha))
    rw [List.countP_cons, ih', hx]
    by_cases hc : c = t
    · simp [hc]
    · simp [hc]

theorem countP_team_congr (heap heap' : Nat → Player) (l : List Nat) (t : String)
    (h : ∀ a, (heap' a).team = (heap a).team) :
    l.countP (fun a => decide ((heap' a).team = t)) =
      l.countP (fun a => decide ((heap a).team = t)) := by
  have : (fun a => decide ((heap' a).team = t)) = (fun a => decide ((heap a).team = t)) := by
    funext a
    rw [h a]
  rw [this]

/-! ## Values of the gauges and counters -/

theorem huntedGaugeValue_append (a b : List Metric) (t : String) :
    huntedGaugeValue (a ++ b) t = huntedGaugeValue a t + huntedGaugeValue b t := by
  simp [huntedGaugeValue, List.map_append, List.sum_append]

theorem inBaseGaugeValue_append (a b : List Metric) (t : String) (i : Nat) :
    inBaseGaugeValue (a ++ b) t i = inBaseGaugeValue a t i + inBaseGaugeValue b t i := by
  simp [inBaseGaugeValue, List.map_append, List.sum_append]

theorem capturedTotal_append (a b : List Metric) :
    capturedTotal (a ++ b) = capturedTotal a + capturedTotal b := by
  simp [capturedTotal, List.countP_append]

theorem rescuedTotal_append (a b : List Metric) :
    rescuedTotal (a ++ b) = rescuedTotal a + rescuedTotal b := by
  simp [rescuedTotal, rescuedEvents_append]

theorem huntedGaugeValue_rescueCalls (heap : Nat → Player) (p : Nat) (l : List Nat) (t : String) :
    huntedGaugeValue (l.flatMap (fun _ => rescueCalls heap p)) t =
      -((if (heap p).team = t then l.length else 0 : Nat) : Int) := by
  induction l with
  | nil => simp [huntedGaugeValue]
  | cons x rest ih =>
    rw [List.flatMap_cons, huntedGaugeValue_append, ih]
    by_cases h : (heap p).team = t
    · simp [huntedGaugeValue, rescueCalls, huntedGaugeDelta, h]
    · simp [huntedGaugeValue, rescueCalls, huntedGaugeDelta, h]

theorem huntedGaugeValue_freeCalls (heap : Nat → Player) (l : List Nat) (t : String) :
    huntedGaugeValue (l.flatMap (freeCalls heap)) t =
      -((l.countP (fun a => decide ((heap a).team = t)) : Nat) : Int) := by
  induction l with
  | nil => simp [huntedGaugeValue]
  | cons x rest ih =>
    rw [List.flatMap_cons, huntedGaugeValue_append, ih, List.countP_cons]
    by_cases h : (heap x).team = t
    · simp [huntedGaugeValue, freeCalls, huntedGaugeDelta, h]
    · simp [huntedGaugeValue, freeCalls, huntedGaugeDelta, h]

theorem inBaseGaugeValue_rescueCalls (heap : Nat → Player) (p : Nat) (l : List Nat)
    (t : String) (i : Nat) :
    inBaseGaugeValue (l.flatMap (fun _ => rescueCalls heap p)) t i = 0 := by
  induction l with
  | nil => rfl
  | cons x rest ih =>
    rw [List.flatMap_cons, inBaseGaugeValue_append, ih]
    rfl

theorem inBaseGaugeValue_freeCalls (heap : Nat → Player) (l : List Nat) (t : String) (i : Nat) :
    inBaseGaugeValue (l.flatMap (freeCalls heap)) t i = 0 := by
  induction l with
  | nil => rfl
  | cons x rest ih =>
    rw [List.flatMap_cons, inBaseGaugeValue_append, ih]
    rfl

theorem capturedTotal_rescueCalls (heap : Nat → Player) (p : Nat) (l : List Nat) :
    capturedTotal (l.flatMap (fun _ => rescueCalls heap p)) = 0 := by
  induction l with
  | nil => rfl
  | cons x rest ih =>
    rw [List.flatMap_cons, capturedTotal_append, ih]
    rfl

theorem capturedTotal_freeCalls (heap : Nat → Player) (l : List Nat) :
    capturedTotal (l.flatMap (freeCalls heap)) = 0 := by
  induction l with
  | nil => rfl
  | cons x rest ih =>
    rw [List.flatMap_cons, capturedTotal_append, ih]
    rfl

theorem rescuedTotal_rescueCalls (heap : Nat → Player) (p : Nat) (l : List Nat) :
    rescuedTotal (l.flatMap (fun _ => rescueCalls heap p)) = l.length := by
  rw [rescuedTotal, rescuedEvents_rescueCalls, List.length_replicate]

theorem rescuedTotal_freeCalls (heap : Nat → Player) (l : List Nat) :
    rescuedTotal (l.flatMap (freeCalls heap)) = l.length := by
  rw [rescuedTotal, rescuedEvents_freeCalls, List.length_map]

theorem exitBase_metrics (g : Game) (p : Nat) (d : Draws) :
    (exitBase g p d).metrics =
      g.metrics ++ (if (g.heap p).inBase = true ∧ d.exit < baseChance then
        [Metric.inBaseGaugeDec (g.heap p).team (g.heap p).id] else []) := by
  unfold exitBase
  by_cases h : (g.heap p).inBase = true ∧ d.exit < baseChance
  · rw [if_pos h, if_pos h]
    simp
  · rw [if_neg h, if_neg h]
    simp

/-! ## The bookkeeping is kept by every operation -/

theorem books_of_released {g g' : Game} {l : List Nat} {batch : List Metric}
    (hb : Books g) (R : Released g g' l)
    (hperm : (captives g'.hunterBase ++ l).Perm (captives g.hunterBase))
    (hm : g'.metrics = g.metrics ++ batch)
    (hg : ∀ t, huntedGaugeValue batch t =
      -((l.countP (fun a => decide ((g.heap a).team = t)) : Nat) : Int))
    (hib : ∀ t i, inBaseGaugeValue batch t i = 0)
    (hc : capturedTotal batch = 0) (hr : rescuedTotal batch = l.length) : Books g' where
  roster := by rw [R.players]; exact hb.roster
  ids := fun a ha => by
    rw [R.id]
    exact hb.ids a (R.players ▸ ha)
  captiveRoster := fun a ha => by
    rw [R.players]
    exact hb.captiveRoster a (hperm.mem_iff.mp (List.mem_append.mpr (Or.inl ha)))
  huntedGauge := fun t => by
    rw [hm, huntedGaugeValue_append, hb.huntedGauge t, hg t,
      countP_team_congr g.heap g'.heap _ t R.team]
    have := hperm.countP_eq (fun a => decide ((g.heap a).team = t))
    rw [List.countP_append] at this
    omega
  inBaseGauge := fun a ha => by
    rw [hm, inBaseGaugeValue_append, hib, R.team, R.id, R.inBase, add_zero]
    exact hb.inBaseGauge a (R.players ▸ ha)
  totals := by
    rw [hm, capturedTotal_append, rescuedTotal_append, hc, hr, hb.totals]
    have := hperm.length_eq
    rw [List.length_append] at this
    omega

theorem books_rescueTeammates {g : Game} (hb : Books g) (hi : Inv g) (p : Nat) :
    Books (rescueTeammates g p) := by
  apply books_of_released hb (rescueTeammates_released g p) _ (rescueTeammates_metrics g p)
  · intro t
    rw [huntedGaugeValue_rescueCalls]
    rw [countP_team_const g.heap _ (g.heap p).team t]
    intro a ha
    rcases (mem_rescuedOf _ _ a).mp ha with ⟨e, he, hm, hae⟩
    rw [hi.prey e he a hae, hm]
  · exact inBaseGaugeValue_rescueCalls _ _ _
  · exact capturedTotal_rescueCalls _ _ _
  · exact rescuedTotal_rescueCalls _ _ _
  · rw [rescueTeammates_hunterBase g p hi.nodupKeys]
    exact captives_cleared_perm _ _

theorem books_commitTreason {g : Game} (hb : Books g) (p : Nat) :
    Books (commitTreason g p) := by
  apply books_of_released hb (commitTreason_released g p) _ (by
    rw [commitTreason_metrics, List.append_assoc])
  · intro t
    rw [huntedGaugeValue_append, huntedGaugeValue_freeCalls]
    exact add_zero _
  · intro t i
    rw [inBaseGaugeValue_append, inBaseGaugeValue_freeCalls]
    rfl
  · rw [capturedTotal_append, capturedTotal_freeCalls]
    rfl
  · rw [rescuedTotal_append, rescuedTotal_freeCalls]
    rfl
  · rw [commitTreason_hunterBase]
    have := captives_mapSet_perm g.hunterBase (g.heap p).team []
    rw [List.append_nil] at this
    exact this

theorem books_hunt {g : Game} (hb : Books g) (p t : Nat) (ht : t ∈ g.players) :
    Books (hunt g p t) := by
  have hperm : (captives (hunt g p t).hunterBase).Perm (captives g.hunterBase ++ [t]) := by
    rw [hunt_hunterBase, List.perm_iff_count]
    intro a
    have := (captives_mapSet_perm g.hunterBase (g.heap p).team
      (bucket g (g.heap p).team ++ [t])).count_eq a
    simp only [List.count_append, bucket] at this ⊢
    omega
  exact
    { roster := hb.roster
      ids := fun a ha => by
        rw [hunt_id]
        exact hb.ids a ha
      captiveRoster := fun a ha => by
        rcases List.mem_append.mp (hperm.mem_iff.mp ha) with h1 | h1
        · exact hb.captiveRoster a h1
        · rw [List.mem_singleton.mp h1]
          exact ht
      huntedGauge := fun T => by
        rw [hunt_metrics, huntedGaugeValue_append, hb.huntedGauge T,
          countP_team_congr g.heap (hunt g p t).heap _ T (hunt_team g p t),
          hperm.countP_eq, List.countP_append]
        by_cases h : (g.heap t).team = T
        · simp [huntedGaugeValue, huntedGaugeDelta, h]
        · simp [huntedGaugeValue, huntedGaugeDelta, h]
      inBaseGauge := fun a ha => by
        rw [hunt_metrics, inBaseGaugeValue_append, hunt_team, hunt_id, hunt_inBase]
        have := hb.inBaseGauge a ha
        rw [this]
        exact add_zero _
      totals := by
        rw [hunt_metrics, capturedTotal_append, rescuedTotal_append, hb.totals,
          hperm.length_eq, List.length_append]
        simp [capturedTotal, rescuedTotal, rescuedEvents, isCapture]
        omega }

theorem books_enterBase {g : Game} (hb : Books g) (p : Nat) (hp : p ∈ g.players)
    (hout : (g.heap p).inBase = false) : Books (enterBase g p) where
  roster := hb.roster
  ids := fun a ha => by
    rw [enterBase_id]
    exact hb.ids a ha
  captiveRoster := hb.captiveRoster
  huntedGauge := fun t => by
    rw [enterBase_metrics, huntedGaugeValue_append, hb.huntedGauge t,
      countP_team_congr g.heap (enterBase g p).heap _ t (enterBase_team g p)]
    exact add_zero _
  inBaseGauge := fun a ha => by
    rw [enterBase_metrics, inBaseGaugeValue_append, enterBase_team, enterBase_id,
      enterBase_inBase, hb.inBaseGauge a ha]
    by_cases hap : a = p
    · rw [hap, hout]
      simp [inBaseGaugeValue, inBaseGaugeDelta]
    · have hid : ¬ (g.heap p).id = (g.heap a).id := by
        rw [hb.ids a ha, hb.ids p hp]
        omega
      simp [inBaseGaugeValue, inBaseGaugeDelta, hid, hap]
  totals := by
    rw [enterBase_metrics, capturedTotal_append, rescuedTotal_append, hb.totals]
    rfl

theorem books_exitBase {g : Game} (hb : Books g) (p : Nat) (d : Draws) (hp : p ∈ g.players) :
    Books (exitBase g p d) where
  roster := by rw [exitBase_players]; exact hb.roster
  ids := fun a ha => by
    rw [exitBase_id]
    exact hb.ids a (exitBase_players g p d ▸ ha)
  captiveRoster := fun a ha => by
    rw [exitBase_players]
    rw [exitBase_hunterBase] at ha
    exact hb.captiveRoster a ha
  huntedGauge := fun t => by
    rw [exitBase_metrics, huntedGaugeValue_append, hb.huntedGauge t, exitBase_hunterBase,
      countP_team_congr g.heap (exitBase g p d).heap _ t (exitBase_team g p d)]
    split <;> simp [huntedGaugeValue, huntedGaugeDelta]
  inBaseGauge := fun a ha => by
    rw [exitBase_players] at ha
    rw [exitBase_metrics, inBaseGaugeValue_append, exitBase_team, exitBase_id,
      exitBase_inBase, hb.inBaseGauge a ha]
    by_cases hc : (g.heap p).inBase = true ∧ d.exit < baseChance
    · by_cases hap : a = p
      · subst hap
        simp [hc.1, hc.2, inBaseGaugeValue, inBaseGaugeDelta]
      · have hid : ¬ (g.heap p).id = (g.heap a).id := by
          rw [hb.ids a ha, hb.ids p hp]
          omega
        simp [hc.1, hc.2, hap, hid, inBaseGaugeValue, inBaseGaugeDelta]
    · rw [if_neg hc,
        if_neg (show ¬ (a = p ∧ (g.heap p).inBase = true ∧ d.exit < baseChance) from
          fun h => hc h.2)]
      simp [inBaseGaugeValue]
  totals := by
    rw [exitBase_metrics, capturedTotal_append, rescuedTotal_append, hb.totals,
      exitBase_hunterBase]
    split <;> simp [capturedTotal, rescuedTotal, rescuedEvents, isCapture]

theorem books_act {g : Game} (hb : Books g) (hi : Inv g) (p : Nat) (d : Draws)
    (hp : p ∈ g.players) : Books (act g p d) := by
  unfold act
  by_cases hg : (g.heap p).hunted = false ∧ (g.heap p).inBase = false
  · rw [if_pos hg]
    by_cases hr : d.rescue < rescueChance
    · rw [if_pos hr]; exact books_rescueTeammates hb hi p
    · rw [if_neg hr]
      by_cases hbase : d.base < baseChance
      · rw [if_pos hbase]; exact books_enterBase hb p hp hg.2
      · rw [if_neg hbase]
        cases ht : findTarget g.heap g.players p with
        | none => exact books_commitTreason hb p
        | some t =>
          simp only []
          by_cases hh : d.hunt < huntChance
          · rw [if_pos hh]
            exact books_hunt hb p t (findTarget_eligible _ _ _ _ ht).2
          · rw [if_neg hh]; exact hb
  · rw [if_neg hg]; exact hb

theorem books_play {g : Game} (hb : Books g) (hi : Inv g) (p : Nat) (d : Draws)
    (hp : p ∈ g.players) : Books (play g p d) :=
  books_act (books_exitBase hb p d hp) (inv_exitBase hi p d) p d
    (by rw [exitBase_players]; exact hp)

theorem captives_empty_buckets (m : List (String × List Nat)) (h : ∀ e, e ∈ m → e.2 = []) :
    captives m = [] := by
  induction m with
  | nil => rfl
  | cons e rest ih =>
    simp only [captives] at ih
    simp only [captives, List.flatMap_cons, h e (List.mem_cons_self _ _), List.nil_append]
    exact ih (fun x hx => h x (List.mem_cons_of_mem _ hx))

theorem books_initializeGame (teams : List String) (numPlayers : Int) (g : Game)
    (h : initializeGame teams numPlayers = some g) : Books g := by
  rcases initializeGame_detail teams numPlayers g h with ⟨g0, h0, hheap, hpl, hms, hhb⟩
  rcases initPlayers_detail teams _ g0 h0 with ⟨i1, i2, i3, i4, i5, i6, _⟩
  have hcap : captives g.hunterBase = [] := by
    rw [hhb]
    exact captives_empty_buckets _ (foldl_mapSet_buckets teams [] (fun e he => by cases he)).1
  have hplayers : g.players = List.range numPlayers.toNat := hpl.trans i1
  exact
    { roster := ⟨_, hplayers⟩
      ids := fun a ha => by
        rw [hplayers, List.mem_range] at ha
        rcases i2 a ha with ⟨t, _, ht⟩
        rw [hheap, ht]
      captiveRoster := fun a ha => by
        rw [hcap] at ha
        cases ha
      huntedGauge := fun t => by
        rw [hcap, hms, i3 t]
        rfl
      inBaseGauge := fun a ha => by
        rw [hplayers, List.mem_range] at ha
        rcases i2 a ha with ⟨t, _, ht⟩
        have := i6 a ha
        rw [hms, hheap]
        rw [ht] at this ⊢
        simpa using this
      totals := by rw [hcap, hms, i4, i5]; rfl }

theorem books_of_reachable {g : Game} (h : Reachable g) : Books g := by
  induction h with
  | init teams n g _ hg => exact books_initializeGame teams n g hg
  | step g p d hr hp ih => exact books_play ih (inv_of_reachable hr) p d hp

/-! ## Selector, gauges and counters in reachable states -/

theorem huntedPlayers_perm_captives {g : Game} (hi : Inv g) (hb : Books g) :
    (huntedPlayers g).Perm (captives g.hunterBase) := by
  rcases hb.roster with ⟨n, hn⟩
  have hnd1 : (huntedPlayers g).Nodup := by
    rw [huntedPlayers, hn]
    exact (List.nodup_range n).filter _
  have hnd2 : (captives g.hunterBase).Nodup := by
    rw [List.nodup_iff_count_le_one]
    intro a
    rw [← occurrences_eq_count]
    exact hi.occ a
  rw [List.perm_ext_iff_of_nodup hnd1 hnd2]
  intro a
  constructor
  · intro ha
    have hh : (g.heap a).hunted = true := by
      simpa [huntedPlayers] using (List.mem_filter.mp ha).2
    have := (hi.hunted a).mp hh
    rw [occurrences_eq_count] at this
    exact List.count_pos_iff.mp (by omega)
  · intro ha
    have h1 : 0 < (captives g.hunterBase).count a := List.count_pos_iff.mpr ha
    have h2 := hi.occ a
    rw [occurrences_eq_count] at h2
    have h3 : occurrences g.hunterBase a = 1 := by
      rw [occurrences_eq_count]
      omega
    rw [huntedPlayers, List.mem_filter]
    exact ⟨hb.captiveRoster a ha, (hi.hunted a).mpr h3⟩

theorem huntedOfTeam_eq_filter (g : Game) (t : String) :
    huntedOfTeam g t = (huntedPlayers g).filter (fun a => decide ((g.heap a).team = t)) := by
  rw [huntedOfTeam, huntedPlayers, List.filter_filter]

theorem reachable_startSix : Reachable startSix :=
  Reachable.init ["fox", "chicken", "snake"] 6 startSix (List.Perm.refl _) rfl

theorem reachable_twoFoxesOut : Reachable twoFoxesOut :=
  Reachable.step _ 3 exitDraws
    (Reachable.step _ 0 exitDraws reachable_startSix (by decide))
    (by rw [play_players]; decide)

theorem mem_players_twoFoxesOut (a : Nat) (ha : a < 6) : a ∈ twoFoxesOut.players := by
  rw [twoFoxesOut, play_players, play_players]
  simp only [startSix, List.mem_cons, List.mem_singleton]
  omega

theorem twoFoxesOut_candidates :
    findTarget twoFoxesOut.heap twoFoxesOut.players 2 = some 0 ∧
      ((twoFoxesOut.heap 3).team = hunts (twoFoxesOut.heap 2).team ∧
        (twoFoxesOut.heap 3).hunted = false ∧ (twoFoxesOut.heap 3).inBase = false) ∧
      (twoFoxesOut.heap 0).id = 1 ∧ (twoFoxesOut.heap 3).id = 4 := by
  have e1 : exitDraws.exit < baseChance := by norm_num [exitDraws, baseChance]
  have e2 : ¬ (exitDraws.rescue < rescueChance) := by norm_num [exitDraws, rescueChance]
  have e3 : ¬ (exitDraws.base < baseChance) := by norm_num [exitDraws, baseChance]
  have e4 : exitDraws.hunt < huntChance := by norm_num [exitDraws, huntChance]
  simp [twoFoxesOut, play, exitBase, act, startSix, e1, e2, e3, e4, store, emptyHeap,
    setInBase, emit, findTarget, eligible, hunts, huntsMap, mapGet, commitTreason, bucket,
    mapSet, hunt, setHunted, freeEnemy]

theorem mem_players_afterFirstHunt (a : Nat) (ha : a < 3) : a ∈ afterFirstHunt.players := by
  rw [afterFirstHunt, play_players, play_players]
  simp only [startGame, List.mem_cons, List.mem_singleton]
  omega

/-- C14. In every reachable state the player `findTarget` returns is a roster
player on the caller's prey team, not hunted and outside its base, and its id
is the smallest among all such roster players. -/
theorem findTarget_smallest_id (g : Game) (p t : Nat) (h : Reachable g)
    (ht : findTarget g.heap g.players p = some t) :
    t ∈ g.players ∧
      ((g.heap t).team = hunts (g.heap p).team ∧ (g.heap t).hunted = false ∧
        (g.heap t).inBase = false) ∧
      ∀ x, x ∈ g.players →
        (g.heap x).team = hunts (g.heap p).team ∧ (g.heap x).hunted = false ∧
          (g.heap x).inBase = false →
        (g.heap t).id ≤ (g.heap x).id ∧ (x ≠ t → (g.heap t).id < (g.heap x).id) := by
  have hb := books_of_reachable h
  have he := findTarget_eligible _ _ _ _ ht
  refine ⟨he.2, he.1, ?_⟩
  intro x hx hel
  rcases (findTarget_eq_some _ _ _ _).mp ht with ⟨pre, post, hpl, _, hpre⟩
  rcases hb.roster with ⟨n, hn⟩
  have hsorted : (pre ++ t :: post).Pairwise (fun a b => a < b) := by
    rw [← hpl, hn]
    exact List.pairwise_lt_range n
  rw [hb.ids t he.2, hb.ids x hx]
  rw [hpl] at hx
  rcases List.mem_append.mp hx with h1 | h1
  · exact absurd hel (hpre x h1)
  · rcases List.mem_cons.mp h1 with h2 | h2
    · rw [h2]
      exact ⟨le_refl _, fun hne => absurd rfl hne⟩
    · have := (List.pairwise_cons.mp (List.pairwise_append.mp hsorted).2.1).1 x h2
      exact ⟨by omega, fun _ => by omega⟩

/-- Witness for C14: with both foxes, players 1 and 4, free and outside
their base, a snake has the two candidates 1 and 4; `findTarget` returns
player 1, whose id is strictly smaller than that of the other candidate. -/
theorem findTarget_smallest_id_witness :
    Reachable twoFoxesOut ∧ findTarget twoFoxesOut.heap twoFoxesOut.players 2 = some 0 ∧
      (3 ∈ twoFoxesOut.players ∧ (twoFoxesOut.heap 3).team = hunts (twoFoxesOut.heap 2).team ∧
        (twoFoxesOut.heap 3).hunted = false ∧ (twoFoxesOut.heap 3).inBase = false) ∧
      ((twoFoxesOut.heap 0).id = 1 ∧ (twoFoxesOut.heap 3).id = 4) ∧
      (twoFoxesOut.heap 0).id < (twoFoxesOut.heap 3).id ∧
      ∀ x, x ∈ twoFoxesOut.players →
        (twoFoxesOut.heap x).team = hunts (twoFoxesOut.heap 2).team ∧
          (twoFoxesOut.heap x).hunted = false ∧ (twoFoxesOut.heap x).inBase = false →
        (twoFoxesOut.heap 0).id ≤ (twoFoxesOut.heap x).id ∧
          (x ≠ 0 → (twoFoxesOut.heap 0).id < (twoFoxesOut.heap x).id) :=
  ⟨reachable_twoFoxesOut, twoFoxesOut_candidates.1,
    ⟨mem_players_twoFoxesOut 3 (by decide), twoFoxesOut_candidates.2.1⟩,
    twoFoxesOut_candidates.2.2,
    ((findTarget_smallest_id twoFoxesOut 2 0 reachable_twoFoxesOut
      twoFoxesOut_candidates.1).2.2 3 (mem_players_twoFoxesOut 3 (by decide))
        twoFoxesOut_candidates.2.1).2 (by decide),
    (findTarget_smallest_id twoFoxesOut 2 0 reachable_twoFoxesOut
      twoFoxesOut_candidates.1).2.2⟩

/-- C15. In every reachable state the value of `huntedGauge` for a team is
the number of roster players of that team whose `hunted` flag is set. -/
theorem huntedGauge_exact (g : Game) (t : String) (h : Reachable g) :
    huntedGaugeValue g.metrics t = ((huntedOfTeam g t).length : Int) := by
  have hb := books_of_reachable h
  have hi := inv_of_reachable h
  rw [hb.huntedGauge t, huntedOfTeam_eq_filter, List.countP_eq_length_filter]
  exact congrArg Nat.cast ((huntedPlayers_perm_captives hi hb).filter _).length_eq.symm

/-- Witness for C15: the chicken team in the state after the first capture. -/
theorem huntedGauge_exact_witness :
    Reachable afterFirstHunt ∧
      huntedGaugeValue afterFirstHunt.metrics "chicken" =
        ((huntedOfTeam afterFirstHunt "chicken").length : Int) :=
  ⟨reachable_afterFirstHunt, huntedGauge_exact afterFirstHunt "chicken" reachable_afterFirstHunt⟩

/-- C17. In every reachable state the value of `inBaseGauge` with the labels
of a roster player is 1 if the player is in base and 0 otherwise. -/
theorem inBaseGauge_exact (g : Game) (a : Nat) (h : Reachable g) (ha : a ∈ g.players) :
    inBaseGaugeValue g.metrics (g.heap a).team (g.heap a).id =
      if (g.heap a).inBase = true then 1 else 0 :=
  (books_of_reachable h).inBaseGauge a ha

/-- Witness for C17: player 1 in the state after the first capture. -/
theorem inBaseGauge_exact_witness :
    Reachable afterFirstHunt ∧ 0 ∈ afterFirstHunt.players ∧
      inBaseGaugeValue afterFirstHunt.metrics (afterFirstHunt.heap 0).team
          (afterFirstHunt.heap 0).id =
        if (afterFirstHunt.heap 0).inBase = true then 1 else 0 :=
  ⟨reachable_afterFirstHunt, mem_players_afterFirstHunt 0 (by decide),
    inBaseGauge_exact afterFirstHunt 0 reachable_afterFirstHunt
      (mem_players_afterFirstHunt 0 (by decide))⟩

/-- C19. In every reachable state the increments of the captured counter
minus the increments of the rescued counter equal the number of hunted roster
players, which equals the sum of the lengths of the buckets; the rescued total
does not exceed the captured total. -/
theorem event_conservation (g : Game) (h : Reachable g) :
    (capturedTotal g.metrics : Int) - (rescuedTotal g.metrics : Int) =
        ((huntedPlayers g).length : Int) ∧
      (huntedPlayers g).length = (g.hunterBase.map (fun e => e.2.length)).sum ∧
      rescuedTotal g.metrics ≤ capturedTotal g.metrics := by
  have hb := books_of_reachable h
  have hi := inv_of_reachable h
  have hlen := (huntedPlayers_perm_captives hi hb).length_eq
  have htot := hb.totals
  refine ⟨by omega, ?_, by omega⟩
  rw [hlen, length_captives]

/-- Witness for C19: the state after the first capture. -/
theorem event_conservation_witness :
    Reachable afterFirstHunt ∧
      ((capturedTotal afterFirstHunt.metrics : Int) - (rescuedTotal afterFirstHunt.metrics : Int) =
          ((huntedPlayers afterFirstHunt).length : Int) ∧
        (huntedPlayers afterFirstHunt).length =
          (afterFirstHunt.hunterBase.map (fun e => e.2.length)).sum ∧
        rescuedTotal afterFirstHunt.metrics ≤ capturedTotal afterFirstHunt.metrics) :=
  ⟨reachable_afterFirstHunt, event_conservation afterFirstHunt reachable_afterFirstHunt⟩

end PlayTag
